import Mathlib

/-!
# boring-registry: GCS registry backend and upload pipeline

A shallow embedding of

* `pkg/module/registry_gcs.go`  (`GetModule`, `ListModuleVersions`, `UploadModule`,
  `getVersion`, `generateDownloadURL`), and
* `internal/cli/uploadcmd/archive.go` (`processModule`, the header name computed in
  `archiveModule`, `meetsSemverConstraints`, `meetsRegexConstraints`),

followed by theorems about the key scheme, the upload contract, listing, the version
filter and archive entry names.

## Conventions

* Go strings are lists of Unicode code points (`GoString`); this covers every valid UTF-8
  string.  `fmt.Sprintf` with `%s` / `%v` on strings is concatenation.
* The part of the Go standard library the code calls is embedded function by function:
  `fmt.Sscanf` with a single `*string` operand from `fmt/scan.go` (`doScanf`, `advance`,
  `SkipSpace`, `token`, `convertString`, `parsenum`, `scanPercent`), and `strings.Split`,
  `strings.Replace`, `strings.TrimPrefix`.  The two conversions `%q` and `%x` are
  parameters (`Conversions`); every theorem holds for all of them.
* Loops are recursions on a bound; the section on recursion bounds shows each bound is
  sufficient.
* A Go result `(T, error)` is a pair `T × Option GoError`.  A call ends as an `Outcome`:
  it returns, or the process stops in `log.Fatal` or in a `panic`.
* The bucket is a `World`: the list of its objects and a log of the requests made, so
  that "no request was made" can be stated.  Stateful functions take a `World` and return
  the new one.
* What lies outside the two files (spec parser, `go-version`, `regexp`, `filepath.Dir`,
  the bytes of the archive, the behaviour of the bucket writer) is the parameter `Env`.
-/

set_option autoImplicit false

namespace BoringRegistry

/-- A Go string, as its sequence of runes. -/
abbrev GoString := List Char

/-- A byte stream (archive content). -/
abbrev Bytes := List Nat

/-! ## `fmt` scanning (Go standard library, `fmt/scan.go`) -/

/-- Go `fmt.isSpace`: the table `space` of `fmt/scan.go`
(U+0009..U+000D, U+0020, U+0085, U+00A0, U+1680, U+2000..U+200A, U+2028, U+2029,
U+202F, U+205F, U+3000). -/
def isSpace (r : Char) : Bool :=
  let n := r.toNat
  (0x0009 ≤ n && n ≤ 0x000d) || n == 0x0020 || n == 0x0085 || n == 0x00a0 || n == 0x1680 ||
  (0x2000 ≤ n && n ≤ 0x200a) || (0x2028 ≤ n && n ≤ 0x2029) || n == 0x202f || n == 0x205f ||
  n == 0x3000

/-- Go `fmt.notSpace`. -/
def notSpace (r : Char) : Bool := !isSpace r

/-- The errors a scan can stop with (the `scanError` panics of `fmt/scan.go`, recovered by
`errorHandler` and returned by `Sscanf`). -/
inductive ScanError where
  | unexpectedNewline      -- "unexpected newline"
  | inputMismatch          -- "input does not match format"
  | newlineMismatch        -- "newline in format does not match input"
  | expectedSpace          -- "expected space in input to match format"
  | newlineInInput         -- "newline in input does not match format"
  | missingVerb            -- "missing verb: % at end of format string"
  | unexpectedEOF          -- io.ErrUnexpectedEOF
  | eof                    -- io.EOF
  | badVerb                -- "bad verb '%c' for string"
  | missingPercent         -- "missing literal %"
  | tooFewOperands         -- "too few operands for format"
  | tooManyOperands        -- "too many operands"
  | conversion             -- an error raised inside a %q or %x conversion
  deriving DecidableEq, Repr

/-- Go `(*ss).SkipSpace` with `nlIsSpace = false` (the setting of `Sscanf`): consumes
spaces, fails on a newline (a carriage return directly before a newline is skipped
first), and leaves the first non-space rune unread. -/
def SkipSpace : GoString → Except ScanError GoString
  | [] => .ok []
  | r :: t =>
    if r = '\r' ∧ t.head? = some '\n' then SkipSpace t
    else if r = '\n' then .error .unexpectedNewline
    else if !isSpace r then .ok (r :: t)
    else SkipSpace t

/-- Go `(*ss).notEOF`: fails with `io.EOF` when no input is left. -/
def notEOF : GoString → Except ScanError Unit
  | [] => .error .eof
  | _ :: _ => .ok ()

/-- Go `(*ss).token(true, notSpace)`: skips leading space, then reads runes up to the
first space or the end of the input.  Returns the token and the remaining input. -/
def token (input : GoString) : Except ScanError (GoString × GoString) :=
  match SkipSpace input with
  | .error e => .error e
  | .ok input1 => .ok (input1.takeWhile notSpace, input1.dropWhile notSpace)

/-- The two string conversions of `fmt` that are not embedded here: `quotedString` for
`%q` and `hexString` for `%x`/`%X`.  Each maps the readable input to the scanned string
and the remaining input, or fails.  They are parameters of the scanner. -/
structure Conversions where
  quotedString : GoString → Option (GoString × GoString)
  hexString : GoString → Option (GoString × GoString)

/-- Go `(*ss).convertString(verb)`: the verbs accepted for a `*string` operand are
`s v q x X`; `%s` and `%v` return the next space-delimited word. -/
def convertString (cv : Conversions) (verb : Char) (input : GoString) :
    Except ScanError (GoString × GoString) :=
  if !(verb = 's' ∨ verb = 'v' ∨ verb = 'q' ∨ verb = 'x' ∨ verb = 'X') then
    .error .badVerb
  else
    match SkipSpace input with
    | .error e => .error e
    | .ok input1 =>
      match notEOF input1 with
      | .error e => .error e
      | .ok _ =>
        if verb = 'q' then
          match cv.quotedString input1 with
          | none => .error .conversion
          | some r => .ok r
        else if verb = 'x' ∨ verb = 'X' then
          match cv.hexString input1 with
          | none => .error .conversion
          | some r => .ok r
        else token input1

/-- One iteration of the newline loop of `(*ss).advance`: reads spaces other than
newline, then requires a newline or the end of the input (the rune read is consumed). -/
def matchNewline : GoString → Except ScanError GoString
  | [] => .ok []
  | c :: t =>
    if isSpace c && c != '\n' then matchNewline t
    else if c = '\n' then .ok t
    else .error .newlineMismatch

/-- The loop `for j := 0; j < newlines; j++` of `(*ss).advance`. -/
def matchNewlines : Nat → GoString → Except ScanError GoString
  | 0, input => .ok input
  | n + 1, input =>
    match matchNewline input with
    | .error e => .error e
    | .ok input1 => matchNewlines n input1

/-- The `if trailingSpace` block of `(*ss).advance`: a run of spaces in the format that
does not follow a newline must meet a space (not a newline) or the end of the input;
then all spaces up to a newline are consumed. -/
def matchTrailingSpace (newlines : Nat) : GoString → Except ScanError GoString
  | [] => .ok []
  | c :: t =>
    if newlines = 0 ∧ !isSpace c then .error .expectedSpace
    else if newlines = 0 ∧ c = '\n' then .error .newlineInInput
    else .ok ((c :: t).dropWhile (fun r => isSpace r && r != '\n'))

/-- The space loop of `(*ss).advance` over the format: counts the newlines of the run of
spaces at the head of the format and records whether the run ends with a space other
than newline.  Returns `(newlines, trailingSpace, number of runes in the run)`. -/
def spaceRun : GoString → Nat → Bool → Nat → Nat × Bool × Nat
  | [], newlines, trailingSpace, k => (newlines, trailingSpace, k)
  | fmtc :: t, newlines, trailingSpace, k =>
    if isSpace fmtc then
      if fmtc = '\n' then spaceRun t (newlines + 1) false (k + 1)
      else spaceRun t newlines true (k + 1)
    else (newlines, trailingSpace, k)

/-- Result of `(*ss).advance`: the number of format runes consumed and the input left, a
mismatch (Go returns `-1`; the rune that did not match is unread), or a scan error. -/
inductive Advance where
  | ok (w : Nat) (input : GoString)
  | mismatch (input : GoString)
  | error (e : ScanError)
  deriving DecidableEq, Repr

/-- One round of the loop of `(*ss).advance` on a format that starts with `fmtc`: a run
of spaces, a `%` (a verb stops the scan, `%%` is a literal percent), or a literal rune.
`i` is the number of format runes consumed so far and `loop` the rest of the loop, run
on the format and input that remain. -/
def advanceStep (loop : GoString → GoString → Nat → Advance)
    (fmtc : Char) (ft input : GoString) (i : Nat) : Advance :=
  if isSpace fmtc then
    match spaceRun (fmtc :: ft) 0 false 0 with
    | (newlines, trailingSpace, k) =>
      match matchNewlines newlines input with
      | .error e => .error e
      | .ok input1 =>
        match (if trailingSpace then matchTrailingSpace newlines input1 else .ok input1) with
        | .error e => .error e
        | .ok input2 => loop ((fmtc :: ft).drop k) input2 (i + k)
  else if fmtc = '%' then
    match ft with
    | [] => .error .missingVerb
    | nextc :: ft1 =>
      if nextc ≠ '%' then .ok i input
      else
        match input with
        | [] => .error .unexpectedEOF
        | inputc :: it =>
          if fmtc ≠ inputc then .mismatch (inputc :: it) else loop ft1 it (i + 2)
  else
    match input with
    | [] => .error .unexpectedEOF
    | inputc :: it =>
      if fmtc ≠ inputc then .mismatch (inputc :: it) else loop ft it (i + 1)

/-- Go `(*ss).advance(format)`, by recursion on a bound for the length of the format;
`i` is the number of format runes consumed so far.  It stops in front of a verb (a `%`
not followed by `%`) or at the end of the format. -/
def advanceAux : Nat → GoString → GoString → Nat → Advance
  | 0, _, input, i => .ok i input
  | fuel + 1, format, input, i =>
    match format with
    | [] => .ok i input
    | fmtc :: ft => advanceStep (advanceAux fuel) fmtc ft input i

/-- Go `(*ss).advance(format)`. -/
def advance (format input : GoString) : Advance :=
  advanceAux format.length format input 0

/-- Go `fmt.parsenum(format, i, end)` with `end = len(format) - 1`, on the format that
follows a `%`: reads a decimal width, never consuming the last rune of the format.
Returns `(num, isnum, rest of the format)`.  When the number exceeds `1e6` Go gives up
and resumes at the last byte of the format. -/
def parsenum : GoString → Nat → Bool → Nat × Bool × GoString
  | c :: d :: t, num, isnum =>
    if '0' ≤ c ∧ c ≤ '9' then
      if num > 1000000 then
        let l := (d :: t).getLastD d
        (0, false, [if l.toNat < 128 then l else (Char.ofNat 0xfffd)])
      else parsenum (d :: t) (num * 10 + (c.toNat - '0'.toNat)) true
    else (num, isnum, c :: d :: t)
  | s, num, isnum => (num, isnum, s)

/-- Go `(*ss).scanPercent`: skips space, requires input (`notEOF`), and accepts a `%`;
when the next rune is not a `%` it fails with "missing literal %". -/
def scanPercent (input : GoString) : Except ScanError GoString :=
  match SkipSpace input with
  | .error e => .error e
  | .ok input1 =>
    match input1 with
    | [] => .error .eof
    | r :: t => if r = '%' then .ok t else .error .missingPercent

/-- The end of `(*ss).doScanf`: with one operand, `numProcessed < len(a)` means the
operand was never filled. -/
def doScanfEnd (stored : Option GoString) : Option GoString × Option ScanError :=
  match stored with
  | none => (none, some .tooManyOperands)
  | some v => (some v, none)

/-- The body of the loop of `(*ss).doScanf` after a `%` at the head of the format:
optional width, verb, conversion into the operand.  `ft` is the format after the `%`,
`loop` the rest of the loop, run on the format and input that remain. -/
def doVerb (cv : Conversions)
    (loop : GoString → GoString → Option GoString → Option GoString × Option ScanError)
    (ft input1 : GoString) (stored : Option GoString) :
    Option GoString × Option ScanError :=
  match parsenum ft 0 false with
  | (maxWid, widPresent, rest) =>
    let c := rest.headD (Char.ofNat 0xfffd)
    match (if c ≠ 'c' then SkipSpace input1 else .ok input1) with
    | .error e => (stored, some e)
    | .ok input2 =>
      if c = '%' then
        match scanPercent input2 with
        | .error e => (stored, some e)
        | .ok input3 => loop rest.tail input3 stored
      else
        match stored with
        | some v => (some v, some .tooFewOperands)
        | none =>
          let window := if widPresent then input2.take maxWid else input2
          let beyond := if widPresent then input2.drop maxWid else []
          match convertString cv c window with
          | .error e => (none, some e)
          | .ok (str, left) => loop rest.tail (left ++ beyond) (some str)

/-- One round of the loop of `(*ss).doScanf` on a format that starts with `f`: literal
text is matched by `advance`; at a `%` the verb is run.  `loop` is the rest of the
loop. -/
def doScanfStep (cv : Conversions)
    (loop : GoString → GoString → Option GoString → Option GoString × Option ScanError)
    (f : Char) (ft input : GoString) (stored : Option GoString) :
    Option GoString × Option ScanError :=
  match advance (f :: ft) input with
  | .error e => (stored, some e)
  | .ok (w + 1) input1 => loop ((f :: ft).drop (w + 1)) input1 stored
  | .mismatch input1 =>
    if f ≠ '%' then (stored, some .inputMismatch)
    else doVerb cv loop ft input1 stored
  | .ok 0 input1 =>
    if f ≠ '%' then doScanfEnd stored
    else doVerb cv loop ft input1 stored

/-- Go `(*ss).doScanf(format, a)` for a single operand `a[0]` of type `*string`, by
recursion on a bound for the length of the format.  `stored` is the value written to the
operand so far (`none` while `numProcessed = 0`).  Returns the final value of the operand
(`none`: never written) and the error.  The global rune limit `hugeWid = 1 <<30` of the
reader is not modelled. -/
def doScanfAux (cv : Conversions) :
    Nat → GoString → GoString → Option GoString → Option GoString × Option ScanError
  | 0, _, _, stored => doScanfEnd stored
  | fuel + 1, format, input, stored =>
    match format with
    | [] => doScanfEnd stored
    | f :: ft => doScanfStep cv (doScanfAux cv fuel) f ft input stored

/-- Go `fmt.Sscanf(str, format, &v)` with `v` a string variable: the value stored in `v`
(`none` when nothing was stored) and the error returned. -/
def Sscanf (cv : Conversions) (str format : GoString) : Option GoString × Option ScanError :=
  doScanfAux cv (format.length + 1) format str none

/-! ## `strings` (Go standard library) -/

/-- Go `strings.Split(s, sep)` for a separator of one rune: the pieces between the
occurrences of `sep`; always at least one piece. -/
def Split (s : GoString) (sep : Char) : List GoString :=
  match s with
  | [] => [[]]
  | c :: t =>
    if c = sep then [] :: Split t sep
    else
      match Split t sep with
      | [] => [[c]]
      | h :: r => (c :: h) :: r

/-- Go `strings.Replace(s, old, new, -1)` (every non-overlapping occurrence, leftmost
first) for a non-empty `old`, by recursion on a bound for the length of `s`. -/
def ReplaceAux (old new : GoString) : Nat → GoString → GoString
  | 0, s => s
  | fuel + 1, s =>
    if old.isPrefixOf s then new ++ ReplaceAux old new fuel (s.drop old.length)
    else
      match s with
      | [] => []
      | c :: t => c :: ReplaceAux old new fuel t

/-- Go `strings.Replace(s, old, new, -1)`.  With `old = new` the string is returned as it
is; an empty `old` matches before every rune and at the end. -/
def Replace (s old new : GoString) : GoString :=
  if old = new then s
  else if old = [] then new ++ (s.map (fun c => c :: new)).flatten
  else ReplaceAux old new s.length s

/-- Go `strings.TrimPrefix(s, p)`. -/
def TrimPrefix (s p : GoString) : GoString :=
  if p.isPrefixOf s then s.drop p.length else s

/-! ## Errors and records of `pkg/module` -/

/-- Modelled from the spec: the package-level error values `ErrNotFound`,
`ErrAlreadyExists` and `ErrUploadFailed` of `pkg/module`, whose declarations are not
among the embedded files (the spec's `NotFoundError`, `AlreadyExistsError` and
`UploadFailedError`).  An error value is identified by which variable it is, not by its
text. -/
inductive Sentinel where
  | ErrNotFound
  | ErrAlreadyExists
  | ErrUploadFailed
  deriving DecidableEq, Repr

/-- A Go `error` value as built by the code: a package-level value, a fresh value made by
`errors.New(msg)`, or `errors.Wrap(cause, msg)` / `errors.Wrapf(cause, msg)`. -/
inductive GoError where
  | sentinel (e : Sentinel)
  | new (msg : GoString)
  | wrap (cause : GoError) (msg : GoString)
  deriving DecidableEq, Repr

/-- Whether an error is the package-level value `target` or wraps it (`errors.Is` /
`errors.Cause` against a package-level value).  A value made by `errors.New` is never
one. -/
def GoError.IsSentinel : GoError → Sentinel → Bool
  | .sentinel e, target => e = target
  | .new _, _ => false
  | .wrap cause _, target => cause.IsSentinel target

/-- The `Module` record of `pkg/module`, with the fields the composite literals of
`registry_gcs.go` set. -/
structure Module where
  Namespace : GoString
  Name : GoString
  Provider : GoString
  Version : GoString
  DownloadURL : GoString
  deriving DecidableEq, Repr

/-- The zero value `Module{}`. -/
def Module.zero : Module := ⟨[], [], [], [], []⟩

/-- How a call ends: it returns, or the process stops in `log.Fatal` (exit status 1) or
in a `panic`. -/
inductive Outcome (α : Type) where
  | returned (a : α)
  | fatal (err : GoError)
  | panicked (err : GoError)
  deriving DecidableEq, Repr

/-! ## The storage backend -/

/-- A request made to the outside, in the order made: the three bucket operations used by
the registry, and the calls `processModule` makes on the registry and the archiver. -/
inductive Event where
  | attrs (key : GoString)
  | objects (pfx : GoString)
  | write (key : GoString)
  | callGetModule (ns name provider version : GoString)
  | callArchiveModule (root : GoString)
  | callUploadModule (ns name provider version : GoString)
  deriving DecidableEq, Repr

/-- The bucket: its objects (name and content, in listing order; every name occurs once)
and the log of requests. -/
structure World where
  objects : List (GoString × Bytes)
  calls : List Event
  deriving DecidableEq, Repr

/-- The fields of `storage.ObjectAttrs` the code reads. -/
structure ObjectAttrs where
  Bucket : GoString
  Name : GoString
  deriving DecidableEq, Repr

/-- The registry value: `GCSRegistry.bucket` (the client `sc` is the `World`). -/
structure GCSRegistry where
  bucket : GoString
  deriving DecidableEq, Repr

/-- The call `o.Attrs(ctx)` on the object named `key`: its attributes, or `none` for the
error `storage.ErrObjectNotExist` when the bucket holds no such object.  Transport
failures are not modelled. -/
def Attrs (s : GCSRegistry) (w : World) (key : GoString) : World × Option ObjectAttrs :=
  let w1 : World := { w with calls := w.calls ++ [.attrs key] }
  if w.objects.any (fun o => o.1 = key) then (w1, some ⟨s.bucket, key⟩) else (w1, none)

/-- The text of `storage.ErrObjectNotExist`. -/
def errObjectNotExistText : GoString := "storage: object doesn't exist".toList

/-- The objects an iterator `Bucket.Objects(ctx, &storage.Query with Prefix pfx)` yields
before `iterator.Done`: those whose name starts with `pfx`.  Iterator errors other than
`Done` are not modelled. -/
def Objects (s : GCSRegistry) (w : World) (pfx : GoString) : World × List ObjectAttrs :=
  ({ w with calls := w.calls ++ [.objects pfx] },
   (w.objects.filter (fun o => pfx.isPrefixOf o.1)).map (fun o => ⟨s.bucket, o.1⟩))

/-- The effect of a completed writer on the object list: the object named `key` now has
content `body` (created, or replaced where it stands). -/
def putObject : List (GoString × Bytes) → GoString → Bytes → List (GoString × Bytes)
  | [], key, body => [(key, body)]
  | o :: os, key, body =>
    if o.1 = key then (key, body) :: os else o :: putObject os key body

/-- What `io.Copy(wc, body)` and `wc.Close()` do in a run: both succeed, or one of them
fails with the given text (no object is then created). -/
inductive WriteResult where
  | ok
  | copyError (text : GoString)
  | closeError (text : GoString)
  deriving DecidableEq, Repr

/-! ## `pkg/module/registry_gcs.go` -/

/-- The object name both `GetModule` (line 26) and `UploadModule` (line 100) format:
`namespace=%[1]v/name=%[2]v/provider=%[3]v/version=%[4]v/%[1]v-%[2]v-%[3]v-%[4]v.tar.gz`. -/
def objectKey (ns name provider version : GoString) : GoString :=
  "namespace=".toList ++ ns ++ "/name=".toList ++ name ++ "/provider=".toList ++ provider ++
  "/version=".toList ++ version ++ "/".toList ++ ns ++ "-".toList ++ name ++ "-".toList ++
  provider ++ "-".toList ++ version ++ ".tar.gz".toList

/-- The listing prefix `fmt.Sprintf("namespace=%s/name=%s/provider=%s", ...)` of
`GetModule` and `ListModuleVersions`. -/
def keyPrefix (ns name provider : GoString) : GoString :=
  "namespace=".toList ++ ns ++ "/name=".toList ++ name ++ "/provider=".toList ++ provider

/-- The method `GCSRegistry.getVersion(objectstr, searchstr)`: scans `objectstr` with
`searchstr` as the format (the error of `Sscanf` is dropped, `_version` stays empty when
nothing was stored), splits at `/` and returns the first piece when there are at least
two. -/
def getVersion (cv : Conversions) (objectstr searchstr : GoString) : GoString × Option GoError :=
  let _version := ((Sscanf cv objectstr searchstr).1).getD []
  let version := Split _version '/'
  if version.length < 2 then
    ([], some (.new ("failed to parse module version from ".toList ++ _version)))
  else (version.headD [], none)

/-- The method `GCSRegistry.generateDownloadURL(bucket, key)`. -/
def generateDownloadURL (bucket key : GoString) : GoString :=
  "gcs::https://www.googleapis.com/storage/v1/".toList ++ bucket ++ "/".toList ++ key

/-- The method `GCSRegistry.GetModule(ctx, namespace, name, provider, version)`. -/
def GetModule (cv : Conversions) (s : GCSRegistry) (w : World)
    (ns name provider version : GoString) : World × Outcome (Module × Option GoError) :=
  match Attrs s w (objectKey ns name provider version) with
  | (w1, none) =>
    (w1, .returned (Module.zero, some (.wrap (.sentinel .ErrNotFound) errObjectNotExistText)))
  | (w1, some attrs) =>
    let pfx := keyPrefix ns name provider
    match getVersion cv attrs.Name (pfx ++ "/version=%s".toList) with
    | (_, some err) => (w1, .fatal err)
    | (version1, none) =>
      (w1, .returned
        ({ Namespace := ns
           Name := attrs.Name
           Provider := provider
           Version := version1
           DownloadURL := generateDownloadURL attrs.Bucket attrs.Name }, none))

/-- The `for` loop of `ListModuleVersions` over the objects the iterator yields. -/
def listLoop (cv : Conversions) (ns provider pfx : GoString) :
    List ObjectAttrs → List Module → Outcome (List Module × Option GoError)
  | [], modules => .returned (modules, none)
  | attrs :: rest, modules =>
    match getVersion cv attrs.Name (pfx ++ "/version=%s".toList) with
    | (_, some err) => .fatal err
    | (version, none) =>
      listLoop cv ns provider pfx rest
        (modules ++ [{ Namespace := ns
                       Name := attrs.Name
                       Provider := provider
                       Version := version
                       DownloadURL := generateDownloadURL attrs.Bucket attrs.Name }])

/-- The method `GCSRegistry.ListModuleVersions(ctx, namespace, name, provider)`. -/
def ListModuleVersions (cv : Conversions) (s : GCSRegistry) (w : World)
    (ns name provider : GoString) : World × Outcome (List Module × Option GoError) :=
  let pfx := keyPrefix ns name provider
  match Objects s w pfx with
  | (w1, it) => (w1, listLoop cv ns provider pfx it [])

/-- The method `GCSRegistry.UploadModule(ctx, namespace, name, provider, version,
body)`; `wr` is what the writer does in this run. -/
def UploadModule (cv : Conversions) (s : GCSRegistry) (wr : WriteResult) (w : World)
    (ns name provider version : GoString) (body : Bytes) :
    World × Outcome (Module × Option GoError) :=
  if ns = [] then (w, .returned (Module.zero, some (.new "namespace not defined".toList)))
  else if name = [] then (w, .returned (Module.zero, some (.new "name not defined".toList)))
  else if provider = [] then
    (w, .returned (Module.zero, some (.new "provider not defined".toList)))
  else if version = [] then
    (w, .returned (Module.zero, some (.new "version not defined".toList)))
  else
    let key := objectKey ns name provider version
    match GetModule cv s w ns name provider version with
    | (w1, .fatal err) => (w1, .fatal err)
    | (w1, .panicked err) => (w1, .panicked err)
    | (w1, .returned (_, none)) =>
      (w1, .returned (Module.zero, some (.wrap (.sentinel .ErrAlreadyExists) key)))
    | (w1, .returned (_, some _)) =>
      match wr with
      | .copyError text =>
        ({ w1 with calls := w1.calls ++ [.write key] },
         .returned (Module.zero, some (.wrap (.sentinel .ErrUploadFailed) text)))
      | .closeError text =>
        ({ w1 with calls := w1.calls ++ [.write key] },
         .returned (Module.zero, some (.wrap (.sentinel .ErrUploadFailed) text)))
      | .ok =>
        GetModule cv s
          { objects := putObject w1.objects key body, calls := w1.calls ++ [.write key] }
          ns name provider version

/-! ## `internal/cli/uploadcmd/archive.go` -/

/-- The identity block `spec.Metadata` of a parsed `module.Spec`. -/
structure Metadata where
  Namespace : GoString
  Name : GoString
  Provider : GoString
  Version : GoString
  deriving DecidableEq, Repr

/-- A parsed module spec (`module.Spec`), as far as `processModule` reads it. -/
structure Spec where
  Metadata : Metadata
  deriving DecidableEq, Repr

/-- The fields of `uploadcmd.Config` that `archive.go` reads. -/
structure Config where
  UploadRecursive : Bool
  IgnoreExistingModule : Bool
  VersionConstraintsSemver : GoString
  VersionConstraintsRegex : GoString
  deriving DecidableEq, Repr

/-- What `processModule` calls outside the embedded files: the spec parser, the
`go-version` and `regexp` libraries (parse errors, for `regexp.Compile` the text of the
error, and the checks as predicates of the source strings), `filepath.Dir`, the archive
`archiveModule` builds for a root, and the behaviour of the bucket writer. -/
structure Env where
  ParseFile : GoString → Except GoError Spec
  NewConstraint : GoString → Option GoError
  NewSemver : GoString → Option GoError
  Check : GoString → GoString → Bool
  Compile : GoString → Option GoString
  MatchString : GoString → GoString → Bool
  Dir : GoString → GoString
  archiveModule : GoString → Bytes × Option GoError
  write : WriteResult

/-- The method `Config.meetsSemverConstraints(spec)`: `(false, err)` when the constraint
or the version does not parse, otherwise `constraints.Check(v)`. -/
def meetsSemverConstraints (env : Env) (c : Config) (spec : Spec) : Bool × Option GoError :=
  match env.NewConstraint c.VersionConstraintsSemver with
  | some err => (false, some err)
  | none =>
    match env.NewSemver spec.Metadata.Version with
    | some err => (false, some err)
    | none => (env.Check c.VersionConstraintsSemver spec.Metadata.Version, none)

/-- The method `Config.meetsRegexConstraints(spec)`: when the pattern does not compile
it panics with
`fmt.Errorf("invalid regex passed to -version-constraints-regex: %v", err)`, otherwise
it returns `constraints.MatchString(spec.Metadata.Version)`. -/
def meetsRegexConstraints (env : Env) (c : Config) (spec : Spec) : Outcome Bool :=
  match env.Compile c.VersionConstraintsRegex with
  | some text =>
    .panicked (.new ("invalid regex passed to -version-constraints-regex: ".toList ++ text))
  | none => .returned (env.MatchString c.VersionConstraintsRegex spec.Metadata.Version)

/-- Lines 72 to 106 of `processModule`: the existence check, the archive and the
upload, for a spec that passed the version filter. -/
def processModuleUpload (cv : Conversions) (env : Env) (c : Config) (s : GCSRegistry)
    (w : World) (path : GoString) (spec : Spec) : World × Outcome (Option GoError) :=
  let m := spec.Metadata
  let w0 : World :=
    { w with calls := w.calls ++ [.callGetModule m.Namespace m.Name m.Provider m.Version] }
  match GetModule cv s w0 m.Namespace m.Name m.Provider m.Version with
  | (w1, .fatal err) => (w1, .fatal err)
  | (w1, .panicked err) => (w1, .panicked err)
  | (w1, .returned (_, none)) =>
    if c.IgnoreExistingModule = true then (w1, .returned none)
    else (w1, .returned (some (.new "module already exists".toList)))
  | (w1, .returned (_, some _)) =>
    let moduleRoot := env.Dir path
    let w2 : World := { w1 with calls := w1.calls ++ [.callArchiveModule moduleRoot] }
    match env.archiveModule moduleRoot with
    | (_, some err) => (w2, .returned (some err))
    | (buf, none) =>
      let w3 : World :=
        { w2 with
          calls := w2.calls ++ [.callUploadModule m.Namespace m.Name m.Provider m.Version] }
      match UploadModule cv s env.write w3 m.Namespace m.Name m.Provider m.Version buf with
      | (w4, .fatal err) => (w4, .fatal err)
      | (w4, .panicked err) => (w4, .panicked err)
      | (w4, .returned (_, some err)) => (w4, .returned (some err))
      | (w4, .returned (_, none)) => (w4, .returned none)

/-- The method `Config.processModule(path, registry)` with the GCS registry: parse,
version filter (lines 52 to 70), then `processModuleUpload`. -/
def processModule (cv : Conversions) (env : Env) (c : Config) (s : GCSRegistry)
    (w : World) (path : GoString) : World × Outcome (Option GoError) :=
  match env.ParseFile path with
  | .error err => (w, .returned (some err))
  | .ok spec =>
    match (if c.VersionConstraintsSemver ≠ [] then meetsSemverConstraints env c spec
           else (true, none)) with
    | (_, some err) => (w, .returned (some err))
    | (false, none) => (w, .returned none)
    | (true, none) =>
      match (if c.VersionConstraintsRegex ≠ [] then meetsRegexConstraints env c spec
             else .returned true) with
      | .panicked err => (w, .panicked err)
      | .fatal err => (w, .fatal err)
      | .returned false => (w, .returned none)
      | .returned true => processModuleUpload cv env c s w path spec

/-- The name `archiveModule` gives the tar header of a visited file (line 141):
`strings.TrimPrefix(strings.Replace(path, root, "", -1), string(filepath.Separator))`. -/
def headerName (separator : Char) (root path : GoString) : GoString :=
  TrimPrefix (Replace path root []) [separator]

/-! ## Auxiliary definitions for the proofs -/

/-- The value of `trailingSpace` after the space loop has read `run`. -/
def lastFlag : GoString → Bool → Bool
  | [], tr => tr
  | c :: r, _ => lastFlag r (c != '\n')

/-- The input side of a space run in `advance`: newline loop, then the trailing-space
block. -/
def matchRun (count total : Nat) (tr : Bool) (input : GoString) : Except ScanError GoString :=
  match matchNewlines count input with
  | .error e => .error e
  | .ok input1 => if tr then matchTrailingSpace total input1 else .ok input1

/-- A string that is not empty and does not start with a space. -/
def HeadNotSpace (y : GoString) : Prop := ∃ c t, y = c :: t ∧ isSpace c = false

/-- What `GetModule` returns for an existing object whose name decodes. -/
def resolvedModule (s : GCSRegistry) (ns name provider version : GoString) : Module :=
  { Namespace := ns
    Name := objectKey ns name provider version
    Provider := provider
    Version := version.takeWhile (fun c => c != '/')
    DownloadURL := generateDownloadURL s.bucket (objectKey ns name provider version) }

/-- The identity of a stored module version. -/
structure Identity where
  Namespace : GoString
  Name : GoString
  Provider : GoString
  Version : GoString
  deriving DecidableEq, Repr

/-- The object name of an identity. -/
def Identity.key (i : Identity) : GoString :=
  objectKey i.Namespace i.Name i.Provider i.Version

/-- The bucket content that holds one archive per listed identity, each under its
object name. -/
def storeOf (ids : List (Identity × Bytes)) : List (GoString × Bytes) :=
  ids.map (fun p => (p.1.key, p.2))

/-- Whether an identity belongs to `(ns, name, provider)`. -/
def Identity.sameModule (ns name provider : GoString) (i : Identity) : Bool :=
  decide (i.Namespace = ns ∧ i.Name = name ∧ i.Provider = provider)

/-- The `Module` the listing builds for a stored identity. -/
def listedModule (s : GCSRegistry) (i : Identity) : Module :=
  { Namespace := i.Namespace
    Name := i.key
    Provider := i.Provider
    Version := i.Version
    DownloadURL := generateDownloadURL s.bucket i.key }

/-- The version filter of `processModule` lets the spec through: each configured
constraint is met. -/
def passesFilter (env : Env) (c : Config) (spec : Spec) : Bool :=
  (decide (c.VersionConstraintsSemver = []) ||
    env.Check c.VersionConstraintsSemver spec.Metadata.Version) &&
  (decide (c.VersionConstraintsRegex = []) ||
    env.MatchString c.VersionConstraintsRegex spec.Metadata.Version)

/-- Conversions that always fail, for evaluating the scanner in the examples; none of the
formats evaluated there reaches a `%q` or `%x` verb, so the choice plays no role. -/
def noConversions : Conversions := ⟨fun _ => none, fun _ => none⟩

/-- The registry of the examples, on the bucket `modules`. -/
def exRegistry : GCSRegistry := ⟨"modules".toList⟩

/-- An environment for the examples: every file parses to the spec with metadata `m`,
constraints and patterns parse, the semver check accepts exactly `1.0.0`, the pattern
matches versions that start with `1`, and the archive of any root is `[1, 2, 3]`. -/
def exEnv (m : Metadata) : Env :=
  { ParseFile := fun _ => .ok ⟨m⟩
    NewConstraint := fun _ => none
    NewSemver := fun _ => none
    Check := fun _ v => decide (v = "1.0.0".toList)
    Compile := fun _ => none
    MatchString := fun _ v => "1".toList.isPrefixOf v
    Dir := fun _ => "modules/vpc".toList
    archiveModule := fun _ => ([1, 2, 3], none)
    write := .ok }

/-- The configuration of the examples: both constraints set. -/
def exConfig (ignoreExisting : Bool) : Config :=
  ⟨true, ignoreExisting, ">=1.0.0".toList, "^1".toList⟩

/-- A configuration without version constraints. -/
def exConfigOpen (ignoreExisting : Bool) : Config :=
  ⟨true, ignoreExisting, [], []⟩

/-- The identity `acme/vpc/aws` at a given version. -/
def exMetadata (version : GoString) : Metadata :=
  ⟨"acme".toList, "vpc".toList, "aws".toList, version⟩

/-- The stored identity `acme/vpc/<provider>` at a given version. -/
def exIdentity (provider version : GoString) : Identity :=
  ⟨"acme".toList, "vpc".toList, provider, version⟩

/-! ## The scanner on a literal pattern -/


theorem lastFlag_of_count_zero (r : GoString) (h : r.count '\n' = 0) :
    lastFlag r true = true := by
  induction r with
  | nil => rfl
  | cons c r ih =>
    have hn : c ≠ '\n' := by
      intro h1; subst h1; simp at h
    have hcr : r.count '\n' = 0 := by
      simpa [List.count_cons, hn] using h
    have hb : (c != '\n') = true := by simp [hn]
    rw [lastFlag, hb]
    exact ih hcr

theorem isSpace_newline : isSpace '\n' = true := by decide
theorem isSpace_cr : isSpace '\r' = true := by decide
theorem isSpace_percent : isSpace '%' = false := by decide
theorem isSpace_slash : isSpace '/' = false := by decide

theorem spaceRun_append (run z : GoString) (hrun : ∀ c ∈ run, isSpace c = true)
    (hz : ∀ c t, z = c :: t → isSpace c = false) (nl : Nat) (tr : Bool) (k : Nat) :
    spaceRun (run ++ z) nl tr k = (nl + run.count '\n', lastFlag run tr, k + run.length) := by
  induction run generalizing nl tr k with
  | nil =>
    cases z with
    | nil => simp [spaceRun, lastFlag]
    | cons c t => simp [spaceRun, lastFlag, hz c t rfl]
  | cons c r ih =>
    have hc : isSpace c = true := hrun c (List.mem_cons_self _ _)
    have hr : ∀ c ∈ r, isSpace c = true := fun d hd => hrun d (List.mem_cons_of_mem _ hd)
    rw [List.cons_append, spaceRun]
    by_cases hn : c = '\n'
    · subst hn
      simp only [hc, if_true]
      rw [ih hr]
      have e1 : List.count '\n' ('\n' :: r) = List.count '\n' r + 1 := by simp
      simp only [e1, lastFlag, List.length_cons, bne_self_eq_false]
      refine Prod.ext ?_ (Prod.ext ?_ ?_)
      · show nl + 1 + List.count '\n' r = nl + (List.count '\n' r + 1)
        omega
      · rfl
      · show k + 1 + r.length = k + (r.length + 1)
        omega
    · simp only [hc, if_true, hn, if_false]
      rw [ih hr]
      have e1 : List.count '\n' (c :: r) = List.count '\n' r := by simp [List.count_cons, hn]
      have hb : (c != '\n') = true := by simp [hn]
      simp only [e1, lastFlag, List.length_cons, hb]
      refine Prod.ext ?_ (Prod.ext ?_ ?_)
      · rfl
      · rfl
      · show k + 1 + r.length = k + (r.length + 1)
        omega

theorem dropWhile_blank (run y : GoString) (hrun : ∀ c ∈ run, isSpace c = true)
    (hcount : run.count '\n' = 0) (hy : ∀ c t, y = c :: t → isSpace c = false) :
    (run ++ y).dropWhile (fun r => isSpace r && r != '\n') = y := by
  induction run with
  | nil =>
    cases y with
    | nil => rfl
    | cons c t => simp [List.dropWhile, hy c t rfl]
  | cons c r ih =>
    have hc : isSpace c = true := hrun c (List.mem_cons_self _ _)
    have hr : ∀ c ∈ r, isSpace c = true := fun d hd => hrun d (List.mem_cons_of_mem _ hd)
    have hn : c ≠ '\n' := by
      intro h; subst h; simp at hcount
    have hcr : r.count '\n' = 0 := by
      simpa [List.count_cons, hn] using hcount
    have hb : (isSpace c && c != '\n') = true := by simp [hc, hn]
    rw [List.cons_append, List.dropWhile_cons]
    simp only [hb, if_true]
    exact ih hr hcr

theorem matchRun_append (run y : GoString) (hrun : ∀ c ∈ run, isSpace c = true)
    (hy : ∀ c t, y = c :: t → isSpace c = false) (total : Nat) :
    matchRun (run.count '\n') total (lastFlag run false) (run ++ y) = .ok y := by
  induction run with
  | nil => simp [matchRun, matchNewlines, lastFlag]
  | cons c r ih =>
    have hc : isSpace c = true := hrun c (List.mem_cons_self _ _)
    have hr : ∀ c ∈ r, isSpace c = true := fun d hd => hrun d (List.mem_cons_of_mem _ hd)
    by_cases hn : c = '\n'
    · subst hn
      have hl : lastFlag ('\n' :: r) false = lastFlag r false := rfl
      rw [hl]
      have hcnt : ('\n' :: r).count '\n' = r.count '\n' + 1 := by simp
      rw [hcnt]
      have := ih hr
      simp only [matchRun, List.cons_append, matchNewlines, matchNewline] at this ⊢
      simpa using this
    · have hcnt : (c :: r).count '\n' = r.count '\n' := by simp [List.count_cons, hn]
      rw [hcnt]
      cases hk : r.count '\n' with
      | zero =>
        have hl : lastFlag (c :: r) false = true := by
          have : (c != '\n') = true := by simp [hn]
          simp only [lastFlag, this]
          exact lastFlag_of_count_zero r hk
        rw [hl]
        have hcount0 : (c :: r).count '\n' = 0 := by rw [hcnt, hk]
        simp only [matchRun, matchNewlines, List.cons_append, matchTrailingSpace, if_true]
        rw [← List.cons_append, dropWhile_blank (c :: r) y hrun hcount0 hy]
        simp [hc, hn]
      | succ m =>
        have hrne : r ≠ [] := by
          intro h; subst h; simp at hk
        have hl : lastFlag (c :: r) false = lastFlag r false := by
          cases r with
          | nil => exact absurd rfl hrne
          | cons d r' => rfl
        rw [hl]
        have := ih hr
        rw [hk] at this
        simp only [matchRun, List.cons_append, matchNewlines, matchNewline] at this ⊢
        simpa [hc, hn] using this

theorem HeadNotSpace.elim_head {y : GoString} (h : HeadNotSpace y) :
    ∀ c t, y = c :: t → isSpace c = false := by
  obtain ⟨c, t, rfl, hc⟩ := h
  intro c' t' e
  cases e
  exact hc

theorem matchRun_split (run y : GoString) (hrun : ∀ c ∈ run, isSpace c = true)
    (hy : ∀ c t, y = c :: t → isSpace c = false) (total : Nat) :
    ∃ r1, matchNewlines (run.count '\n') (run ++ y) = .ok r1 ∧
      (if lastFlag run false = true then matchTrailingSpace total r1 else .ok r1) = .ok y := by
  have h := matchRun_append run y hrun hy total
  unfold matchRun at h
  split at h
  · cases h
  · rename_i r1 h1
    exact ⟨r1, h1, by simpa using h⟩

theorem advanceAux_literal (v : Char) (rest : GoString) (hv : v ≠ '%') :
    ∀ (fuel : Nat) (lit y : GoString) (i : Nat), lit.length < fuel → '%' ∉ lit →
      HeadNotSpace y →
      advanceAux fuel (lit ++ '%' :: v :: rest) (lit ++ y) i = .ok (i + lit.length) y := by
  intro fuel
  induction fuel with
  | zero => intro lit y i h; exact absurd h (Nat.not_lt_zero _)
  | succ fuel ih =>
    intro lit y i hlen hpc hy
    cases lit with
    | nil =>
      rw [List.nil_append, List.nil_append, advanceAux]
      unfold advanceStep
      simp [isSpace_percent, hv]
    | cons c l =>
      have hc : c ≠ '%' := fun h => hpc (h ▸ List.mem_cons_self _ _)
      have hl : '%' ∉ l := fun h => hpc (List.mem_cons_of_mem _ h)
      have hlen1 : l.length < fuel := by simpa using hlen
      by_cases hs : isSpace c = true
      · -- a run of spaces in the format
        obtain ⟨run, l1, hsplit, hrun, hl1⟩ :
            ∃ run l1, c :: l = run ++ l1 ∧ (∀ d ∈ run, isSpace d = true) ∧
              (∀ d t, l1 = d :: t → isSpace d = false) := by
          refine ⟨(c :: l).takeWhile isSpace, (c :: l).dropWhile isSpace,
            (List.takeWhile_append_dropWhile _ _).symm, ?_, ?_⟩
          · intro d hd
            exact List.mem_takeWhile_imp hd
          · intro d t hdt
            have := List.head_dropWhile_not isSpace (c :: l) (by rw [hdt]; simp)
            simpa [hdt] using this
        have hrunne : run ≠ [] := by
          intro h
          subst h
          have := hl1 c l (by simpa using hsplit.symm)
          rw [hs] at this
          cases this
        have hpl1 : '%' ∉ l1 := by
          intro h
          have : '%' ∈ c :: l := by rw [hsplit]; exact List.mem_append_right _ h
          exact hpc this
        have hz : ∀ d t, l1 ++ '%' :: v :: rest = d :: t → isSpace d = false := by
          intro d t hdt
          cases l1 with
          | nil =>
            simp at hdt
            rw [← hdt.1]; exact isSpace_percent
          | cons e l2 =>
            simp at hdt
            rw [← hdt.1]; exact hl1 e l2 rfl
        have hy1 : HeadNotSpace (l1 ++ y) := by
          cases l1 with
          | nil => simpa using hy
          | cons e l2 => exact ⟨e, l2 ++ y, rfl, hl1 e l2 rfl⟩
        have hfmt : (c :: l) ++ '%' :: v :: rest = run ++ (l1 ++ '%' :: v :: rest) := by
          rw [hsplit, List.append_assoc]
        have hinp : (c :: l) ++ y = run ++ (l1 ++ y) := by
          rw [hsplit, List.append_assoc]
        obtain ⟨r1, hr1, hr2⟩ := matchRun_split run (l1 ++ y) hrun hy1.elim_head (run.count '\n')
        have hlenrun : (c :: l).length = run.length + l1.length := by
          rw [hsplit, List.length_append]
        have hrunpos : 0 < run.length := List.length_pos.mpr hrunne
        have hl1len : l1.length < fuel := by
          simp only [List.length_cons] at hlenrun
          omega
        have hsr := spaceRun_append run (l1 ++ '%' :: v :: rest) hrun hz 0 false 0
        rw [← hfmt] at hsr
        rw [List.cons_append] at hsr
        rw [List.cons_append, advanceAux]
        unfold advanceStep
        simp only [hs, if_true, hsr, Nat.zero_add]
        rw [hinp, hr1]
        simp only []
        rw [hr2]
        simp only []
        rw [← List.cons_append, hfmt, List.drop_left]
        rw [ih l1 y (i + run.length) hl1len hpl1 hy]
        rw [hlenrun, Nat.add_assoc]
      · -- a literal rune
        have hs' : isSpace c = false := by simpa using hs
        rw [List.cons_append, List.cons_append, advanceAux]
        unfold advanceStep
        simp only [hs', hc, if_false, ne_eq, not_true_eq_false]
        rw [ih l y (i + 1) hlen1 hl hy]
        have e : i + 1 + l.length = i + (c :: l).length := by
          simp only [List.length_cons]; omega
        rw [e]
        simp

theorem SkipSpace_of_head {y : GoString} (hy : HeadNotSpace y) : SkipSpace y = .ok y := by
  obtain ⟨c, t, rfl, hc⟩ := hy
  have h1 : c ≠ '\r' := by
    intro h; rw [h, isSpace_cr] at hc; cases hc
  have h2 : c ≠ '\n' := by
    intro h; rw [h, isSpace_newline] at hc; cases hc
  simp [SkipSpace, h1, h2, hc]

/-- Scanning `lit ++ y` with the format `lit ++ "%s"`, where `lit` has no `%` and `y`
starts with a rune that is not a space, stores the first word of `y`. -/
theorem Sscanf_literal (cv : Conversions) (c : Char) (l y : GoString) (hpc : '%' ∉ c :: l)
    (hy : HeadNotSpace y) :
    Sscanf cv ((c :: l) ++ y) ((c :: l) ++ ['%', 's']) = (some (y.takeWhile notSpace), none) := by
  have hs : ('s' : Char) ≠ '%' := by decide
  have hadv : advance ((c :: l) ++ ['%', 's']) ((c :: l) ++ y) = .ok ((c :: l).length) y := by
    unfold advance
    rw [advanceAux_literal 's' [] hs _ (c :: l) y 0 (by simp) hpc hy, Nat.zero_add]
  have hadv2 : advance ['%', 's'] y = .ok 0 y := by
    unfold advance
    have := advanceAux_literal 's' [] hs 2 [] y 0 (by simp) (by simp) hy
    simpa using this
  have hskip := SkipSpace_of_head hy
  obtain ⟨d, t, rfl, hd⟩ := hy
  unfold Sscanf
  have hlen : ((c :: l) ++ ['%', 's']).length + 1 = (l.length + 2) + 1 + 1 := by
    simp
  rw [hlen, List.cons_append, doScanfAux]
  unfold doScanfStep
  rw [← List.cons_append, hadv]
  simp only [List.length_cons]
  have hdrop : (c :: l ++ ['%', 's']).drop (l.length + 1) = ['%', 's'] := by
    have : (c :: l).length = l.length + 1 := rfl
    rw [← this, List.drop_left]
  rw [hdrop, doScanfAux]
  unfold doScanfStep
  rw [hadv2]
  simp only [ne_eq, not_true_eq_false, if_false]
  unfold doVerb
  simp only [parsenum, List.headD_cons, List.tail_cons]
  have hsc : ('s' : Char) ≠ 'c' := by decide
  simp only [ne_eq, hsc, not_false_eq_true, if_true, hskip, hs, if_false]
  have hconv : convertString cv 's' (d :: t) =
      .ok ((d :: t).takeWhile notSpace, (d :: t).dropWhile notSpace) := by
    unfold convertString
    have hq : ('s' : Char) ≠ 'q' := by decide
    have hx : ('s' : Char) ≠ 'x' := by decide
    have hX : ('s' : Char) ≠ 'X' := by decide
    simp only [true_or, not_true_eq_false, Bool.not_true, Bool.false_eq_true, if_false, hskip,
      notEOF, hq, hx, hX, or_self, token, decide_True]
  simp only [Bool.false_eq_true, if_false, hconv, List.append_nil]
  rw [doScanfAux]
  rfl

theorem Split_ne_nil (s : GoString) (sep : Char) : Split s sep ≠ [] := by
  cases s with
  | nil => simp [Split]
  | cons c t =>
    unfold Split
    by_cases h : c = sep
    · simp [h]
    · simp only [h, if_false]
      split <;> simp

theorem Split_cons_of_ne (c : Char) (t : GoString) (sep : Char) (h : c ≠ sep) :
    Split (c :: t) sep = (c :: (Split t sep).headD []) :: (Split t sep).tail := by
  conv => lhs; unfold Split
  simp only [h, if_false]
  split
  · rename_i heq; exact absurd heq (Split_ne_nil t sep)
  · rename_i hd tl heq; simp [heq]

theorem takeWhile_notSpace_append (v t : GoString) (hv : ∀ c ∈ v, isSpace c = false) :
    (v ++ '/' :: t).takeWhile notSpace = v ++ '/' :: t.takeWhile notSpace := by
  induction v with
  | nil =>
    have : notSpace '/' = true := by decide
    simp [List.takeWhile, this]
  | cons c r ih =>
    have hc : notSpace c = true := by
      simp [notSpace, hv c (List.mem_cons_self _ _)]
    rw [List.cons_append, List.takeWhile_cons]
    simp only [hc, if_true]
    rw [ih (fun d hd => hv d (List.mem_cons_of_mem _ hd))]
    rfl

/-- The literal text of the search pattern for `(ns, name, provider)`. -/
theorem keyPrefix_literal (ns name provider : GoString) :
    keyPrefix ns name provider ++ "/version=%s".toList =
      ('n' :: ("amespace=".toList ++ ns ++ "/name=".toList ++ name ++ "/provider=".toList ++
        provider ++ "/version=".toList)) ++ ['%', 's'] := by
  simp [keyPrefix]

theorem objectKey_literal (ns name provider version : GoString) :
    objectKey ns name provider version =
      ('n' :: ("amespace=".toList ++ ns ++ "/name=".toList ++ name ++ "/provider=".toList ++
        provider ++ "/version=".toList)) ++
      (version ++ '/' :: (ns ++ "-".toList ++ name ++ "-".toList ++ provider ++ "-".toList ++
        version ++ ".tar.gz".toList)) := by
  simp [objectKey]

theorem percent_not_mem_literal (ns name provider : GoString)
    (h1 : '%' ∉ ns) (h2 : '%' ∉ name) (h3 : '%' ∉ provider) :
    '%' ∉ 'n' :: ("amespace=".toList ++ ns ++ "/name=".toList ++ name ++
      "/provider=".toList ++ provider ++ "/version=".toList) := by
  have e1 : '%' ∉ "amespace=".toList := by decide
  have e2 : '%' ∉ "/name=".toList := by decide
  have e3 : '%' ∉ "/provider=".toList := by decide
  have e4 : '%' ∉ "/version=".toList := by decide
  have e5 : ('%' : Char) ≠ 'n' := by decide
  simp only [List.mem_cons, List.mem_append, not_or]
  exact ⟨e5, ⟨⟨⟨⟨⟨⟨e1, h1⟩, e2⟩, h2⟩, e3⟩, h3⟩, e4⟩⟩

theorem Split_head_append (v t : GoString) (sep : Char) :
    (Split (v ++ sep :: t) sep).headD [] = v.takeWhile (fun c => c != sep) ∧
      2 ≤ (Split (v ++ sep :: t) sep).length := by
  induction v with
  | nil =>
    have := List.length_pos.mpr (Split_ne_nil t sep)
    simp [Split]
    omega
  | cons c r ih =>
    by_cases hc : c = sep
    · subst hc
      have := List.length_pos.mpr (Split_ne_nil (r ++ c :: t) c)
      rw [List.cons_append]
      conv => lhs; unfold Split
      conv => rhs; unfold Split
      simp
      omega
    · rw [List.cons_append, Split_cons_of_ne c _ sep hc]
      obtain ⟨ih1, ih2⟩ := ih
      have hb : (c != sep) = true := by simp [hc]
      constructor
      · rw [List.headD_cons, List.takeWhile_cons, ih1]
        simp only [hb, if_true]
      · simp only [List.length_cons, List.length_tail]
        omega

/-- Decoding: with no `%` in namespace, name and provider and no space in the version,
`getVersion` on an object name that continues the pattern text with `version ++ "/" ++ t`
returns the version up to its first `/`, and no error. -/
theorem getVersion_literal (cv : Conversions) (ns name provider version t : GoString)
    (h1 : '%' ∉ ns) (h2 : '%' ∉ name) (h3 : '%' ∉ provider)
    (hv : ∀ c ∈ version, isSpace c = false) :
    getVersion cv
      (('n' :: ("amespace=".toList ++ ns ++ "/name=".toList ++ name ++ "/provider=".toList ++
        provider ++ "/version=".toList)) ++ (version ++ '/' :: t))
      (keyPrefix ns name provider ++ "/version=%s".toList) =
      (version.takeWhile (fun c => c != '/'), none) := by
  have hy : HeadNotSpace (version ++ '/' :: t) := by
    cases version with
    | nil => exact ⟨'/', t, rfl, isSpace_slash⟩
    | cons c r => exact ⟨c, r ++ '/' :: t, rfl, hv c (List.mem_cons_self _ _)⟩
  unfold getVersion
  rw [keyPrefix_literal, Sscanf_literal cv _ _ _ (percent_not_mem_literal ns name provider h1 h2 h3) hy]
  simp only [Option.getD_some]
  rw [takeWhile_notSpace_append version t hv]
  obtain ⟨e1, e2⟩ := Split_head_append version (List.takeWhile notSpace t) '/'
  have hlen : ¬ (Split (version ++ '/' :: List.takeWhile notSpace t) '/').length < 2 := by omega
  simp only [hlen, if_false, e1]

theorem takeWhile_ne_of_not_mem (v : GoString) (sep : Char) (h : sep ∉ v) :
    v.takeWhile (fun c => c != sep) = v := by
  induction v with
  | nil => rfl
  | cons c r ih =>
    have hc : c ≠ sep := fun e => h (e ▸ List.mem_cons_self _ _)
    have hb : (c != sep) = true := by simp [hc]
    rw [List.takeWhile_cons, ih (fun e => h (List.mem_cons_of_mem _ e))]
    simp only [hb, if_true]

theorem GetModule_found (cv : Conversions) (s : GCSRegistry) (w : World)
    (ns name provider version : GoString)
    (hex : w.objects.any (fun o => o.1 = objectKey ns name provider version) = true)
    (h1 : '%' ∉ ns) (h2 : '%' ∉ name) (h3 : '%' ∉ provider)
    (hv : ∀ c ∈ version, isSpace c = false) :
    GetModule cv s w ns name provider version =
      ({ w with calls := w.calls ++ [.attrs (objectKey ns name provider version)] },
       .returned (resolvedModule s ns name provider version, none)) := by
  unfold GetModule Attrs
  simp only [hex, if_true]
  rw [objectKey_literal, getVersion_literal cv ns name provider version _ h1 h2 h3 hv]
  simp [resolvedModule, objectKey_literal]

theorem GetModule_missing (cv : Conversions) (s : GCSRegistry) (w : World)
    (ns name provider version : GoString)
    (hex : w.objects.any (fun o => o.1 = objectKey ns name provider version) = false) :
    GetModule cv s w ns name provider version =
      ({ w with calls := w.calls ++ [.attrs (objectKey ns name provider version)] },
       .returned (Module.zero, some (.wrap (.sentinel .ErrNotFound) errObjectNotExistText))) := by
  unfold GetModule Attrs
  simp [hex]

theorem putObject_missing (objs : List (GoString × Bytes)) (key : GoString) (body : Bytes)
    (h : objs.any (fun o => o.1 = key) = false) :
    putObject objs key body = objs ++ [(key, body)] := by
  induction objs with
  | nil => rfl
  | cons o os ih =>
    simp only [List.any_cons, Bool.or_eq_false_iff, decide_eq_false_iff_not] at h
    simp [putObject, h.1, ih h.2]

theorem any_putObject (objs : List (GoString × Bytes)) (key : GoString) (body : Bytes) :
    (putObject objs key body).any (fun o => o.1 = key) = true := by
  induction objs with
  | nil => simp [putObject]
  | cons o os ih =>
    unfold putObject
    by_cases h : o.1 = key
    · simp [h]
    · simp only [h, if_false, List.any_cons, ih, Bool.or_true]


/-! ## The recursion bounds are sufficient -/

theorem spaceRun_bounds (fmt : GoString) (nl : Nat) (tr : Bool) (k : Nat) :
    k ≤ (spaceRun fmt nl tr k).2.2 ∧ (spaceRun fmt nl tr k).2.2 ≤ k + fmt.length ∧
      (∀ c t, fmt = c :: t → isSpace c = true → k + 1 ≤ (spaceRun fmt nl tr k).2.2) := by
  induction fmt generalizing nl tr k with
  | nil => simp [spaceRun]
  | cons c t ih =>
    by_cases hc : isSpace c = true
    · by_cases hn : c = '\n'
      · subst hn
        have := ih (nl + 1) false (k + 1)
        simp only [spaceRun, isSpace_newline, if_true, List.length_cons]
        refine ⟨by omega, by omega, fun _ _ _ _ => by omega⟩
      · have := ih nl true (k + 1)
        simp only [spaceRun, hc, hn, if_true, if_false, List.length_cons]
        refine ⟨by omega, by omega, fun _ _ _ _ => by omega⟩
    · simp only [spaceRun, hc, Bool.false_eq_true, if_false, List.length_cons]
      refine ⟨by omega, by omega, ?_⟩
      intro c' t' h hs
      cases h
      exact absurd hs hc

theorem advanceStep_congr (loop1 loop2 : GoString → GoString → Nat → Advance)
    (fmtc : Char) (ft input : GoString) (i : Nat)
    (h : ∀ f inp j, f.length ≤ ft.length → loop1 f inp j = loop2 f inp j) :
    advanceStep loop1 fmtc ft input i = advanceStep loop2 fmtc ft input i := by
  unfold advanceStep
  by_cases hs : isSpace fmtc = true
  · simp only [hs, if_true]
    obtain ⟨_, hb2, hb3⟩ := spaceRun_bounds (fmtc :: ft) 0 false 0
    have hk := hb3 fmtc ft rfl hs
    generalize spaceRun (fmtc :: ft) 0 false 0 = r at hb2 hk
    obtain ⟨newlines, trailingSpace, k⟩ := r
    simp only at hb2 hk ⊢
    cases matchNewlines newlines input with
    | error e => rfl
    | ok input1 =>
      simp only []
      cases (if trailingSpace = true then matchTrailingSpace newlines input1
        else Except.ok input1) with
      | error e => rfl
      | ok input2 =>
        simp only []
        apply h
        simp only [List.length_drop, List.length_cons]
        omega
  · simp only [hs, Bool.false_eq_true, if_false]
    by_cases hp : fmtc = '%'
    · simp only [hp, if_true]
      cases ft with
      | nil => rfl
      | cons nextc ft1 =>
        simp only []
        by_cases hn : nextc = '%'
        · simp only [hn, ne_eq, not_true_eq_false, if_false]
          cases input with
          | nil => rfl
          | cons inputc it =>
            simp only []
            split
            · rfl
            · apply h; simp
        · simp only [ne_eq, hn, not_false_eq_true, if_true]
    · simp only [hp, if_false]
      cases input with
      | nil => rfl
      | cons inputc it =>
        simp only []
        split
        · rfl
        · apply h; simp

/-- The bound of `advanceAux` is enough: more fuel than the length of the format changes
nothing. -/
theorem advanceAux_fuel (fuel : Nat) :
    ∀ (format input : GoString) (i : Nat), format.length ≤ fuel →
      advanceAux fuel format input i = advanceAux format.length format input i := by
  induction fuel using Nat.strong_induction_on with
  | _ fuel ih =>
    intro format input i hlen
    cases format with
    | nil =>
      cases fuel with
      | zero => rfl
      | succ n => simp [advanceAux]
    | cons c ft =>
      cases fuel with
      | zero => simp at hlen
      | succ n =>
        have hft : ft.length ≤ n := by simpa using hlen
        simp only [advanceAux, List.length_cons]
        apply advanceStep_congr
        intro f inp j hf
        rw [ih n (Nat.lt_succ_self n) f inp j (by omega)]
        by_cases hlt : ft.length = n
        · subst hlt; rw [ih ft.length (by omega) f inp j hf]
        · rw [ih ft.length (by omega) f inp j hf]

theorem parsenum_length (ft : GoString) :
    ∀ (num : Nat) (isnum : Bool), (parsenum ft num isnum).2.2.length ≤ ft.length := by
  induction ft with
  | nil => intro num isnum; simp [parsenum]
  | cons c t ih =>
    intro num isnum
    cases t with
    | nil => simp [parsenum]
    | cons d t1 =>
      unfold parsenum
      by_cases hd : '0' ≤ c ∧ c ≤ '9'
      · simp only [hd, and_self, if_true]
        by_cases hbig : num > 1000000
        · simp only [hbig, if_true, List.length_cons, List.length_nil]
          omega
        · simp only [hbig, if_false]
          have := ih (num * 10 + (c.toNat - '0'.toNat)) true
          simp only [List.length_cons] at this ⊢
          omega
      · simp only [hd, if_false]
        exact Nat.le_refl _

theorem doVerb_congr (cv : Conversions)
    (loop1 loop2 : GoString → GoString → Option GoString → Option GoString × Option ScanError)
    (ft input : GoString) (stored : Option GoString)
    (h : ∀ f inp st, f.length ≤ ft.length → loop1 f inp st = loop2 f inp st) :
    doVerb cv loop1 ft input stored = doVerb cv loop2 ft input stored := by
  unfold doVerb
  have hlen := parsenum_length ft 0 false
  generalize parsenum ft 0 false = r at hlen
  obtain ⟨maxWid, widPresent, rest⟩ := r
  simp only at hlen ⊢
  have htail : rest.tail.length ≤ ft.length := by
    simp only [List.length_tail]; omega
  cases (if rest.headD (Char.ofNat 0xfffd) ≠ 'c' then SkipSpace input else Except.ok input) with
  | error e => rfl
  | ok input2 =>
    simp only []
    split
    · cases scanPercent input2 with
      | error e => rfl
      | ok input3 => exact h _ _ _ htail
    · cases stored with
      | some v => rfl
      | none =>
        simp only []
        cases convertString cv (rest.headD (Char.ofNat 0xfffd))
            (if widPresent = true then List.take maxWid input2 else input2) with
        | error e => rfl
        | ok p => exact h _ _ _ htail

theorem doScanfStep_congr (cv : Conversions)
    (loop1 loop2 : GoString → GoString → Option GoString → Option GoString × Option ScanError)
    (f : Char) (ft input : GoString) (stored : Option GoString)
    (h : ∀ g inp st, g.length ≤ ft.length → loop1 g inp st = loop2 g inp st) :
    doScanfStep cv loop1 f ft input stored = doScanfStep cv loop2 f ft input stored := by
  unfold doScanfStep
  cases advance (f :: ft) input with
  | error e => rfl
  | mismatch input1 =>
    simp only []
    split
    · rfl
    · exact doVerb_congr cv loop1 loop2 ft input1 stored h
  | ok w input1 =>
    cases w with
    | zero =>
      simp only []
      split
      · rfl
      · exact doVerb_congr cv loop1 loop2 ft input1 stored h
    | succ w =>
      simp only []
      apply h
      simp only [List.length_drop, List.length_cons]
      omega

/-- The bound of `doScanfAux` is enough: more fuel than the length of the format plus
one changes nothing. -/
theorem doScanfAux_fuel (cv : Conversions) (fuel : Nat) :
    ∀ (format input : GoString) (stored : Option GoString), format.length ≤ fuel →
      doScanfAux cv fuel format input stored =
        doScanfAux cv format.length format input stored := by
  induction fuel using Nat.strong_induction_on with
  | _ fuel ih =>
    intro format input stored hlen
    cases format with
    | nil =>
      cases fuel with
      | zero => rfl
      | succ n => simp [doScanfAux]
    | cons c ft =>
      cases fuel with
      | zero => simp at hlen
      | succ n =>
        have hft : ft.length ≤ n := by simpa using hlen
        simp only [doScanfAux, List.length_cons]
        apply doScanfStep_congr
        intro f inp st hf
        rw [ih n (Nat.lt_succ_self n) f inp st (by omega),
          ih ft.length (by omega) f inp st hf]

/-- The bound of `ReplaceAux` is enough. -/
theorem ReplaceAux_fuel (old new : GoString) (hold : old ≠ []) (fuel : Nat) :
    ∀ s : GoString, s.length ≤ fuel →
      ReplaceAux old new fuel s = ReplaceAux old new s.length s := by
  induction fuel using Nat.strong_induction_on with
  | _ fuel ih =>
    intro s hlen
    cases fuel with
    | zero =>
      have : s = [] := List.length_eq_zero.mp (Nat.le_zero.mp hlen)
      subst this; rfl
    | succ n =>
      cases s with
      | nil =>
        cases old with
        | nil => exact absurd rfl hold
        | cons o os => simp [ReplaceAux, List.isPrefixOf]
      | cons c t =>
        have ht : t.length ≤ n := by simpa using hlen
        have holdlen : 0 < old.length := List.length_pos.mpr hold
        simp only [ReplaceAux, List.length_cons]
        split
        · have hd : ((c :: t).drop old.length).length ≤ t.length := by
            simp only [List.length_drop, List.length_cons]; omega
          rw [ih n (Nat.lt_succ_self n) _ (by omega), ih t.length (by omega) _ hd]
        · rw [ih n (Nat.lt_succ_self n) t ht]

/-- The result of `Sscanf` does not depend on the bound, once it covers the format. -/
theorem Sscanf_fuel (cv : Conversions) (str format : GoString) (fuel : Nat)
    (h : format.length ≤ fuel) :
    doScanfAux cv fuel format str none = Sscanf cv str format := by
  unfold Sscanf
  rw [doScanfAux_fuel cv fuel format str none h,
    doScanfAux_fuel cv (format.length + 1) format str none (Nat.le_succ _)]

/-! ## The registry and the upload pipeline -/

theorem GetModule_world (cv : Conversions) (s : GCSRegistry) (w : World)
    (ns name provider version : GoString) :
    (GetModule cv s w ns name provider version).1 =
      { w with calls := w.calls ++ [.attrs (objectKey ns name provider version)] } := by
  unfold GetModule Attrs
  by_cases h : w.objects.any (fun o => o.1 = objectKey ns name provider version) = true
  · simp only [h, if_true]
    split <;> rfl
  · simp only [h, Bool.false_eq_true, if_false]

theorem GetModule_outcome_calls (cv : Conversions) (s : GCSRegistry) (objs : List (GoString × Bytes))
    (calls1 calls2 : List Event) (ns name provider version : GoString) :
    (GetModule cv s ⟨objs, calls1⟩ ns name provider version).2 =
      (GetModule cv s ⟨objs, calls2⟩ ns name provider version).2 := by
  unfold GetModule Attrs
  simp only []
  by_cases h : objs.any (fun o => o.1 = objectKey ns name provider version) = true
  · simp only [h, if_true]
    split <;> rfl
  · simp only [h, Bool.false_eq_true, if_false]

theorem isPrefixOf_append (l r : GoString) : l.isPrefixOf (l ++ r) = true := by
  induction l with
  | nil => simp [List.isPrefixOf]
  | cons c t ih => simp [List.isPrefixOf, ih]

theorem keyPrefix_isPrefixOf (ns name provider version : GoString) :
    (keyPrefix ns name provider).isPrefixOf (objectKey ns name provider version) = true := by
  have h : objectKey ns name provider version = keyPrefix ns name provider ++
      ("/version=".toList ++ version ++ "/".toList ++ ns ++ "-".toList ++ name ++
        "-".toList ++ provider ++ "-".toList ++ version ++ ".tar.gz".toList) := by
    simp [keyPrefix, objectKey]
  rw [h]
  exact isPrefixOf_append _ _

theorem listLoop_storeOf (cv : Conversions) (s : GCSRegistry) (ns name provider : GoString)
    (h1 : '%' ∉ ns) (h2 : '%' ∉ name) (h3 : '%' ∉ provider) :
    ∀ (ids : List (Identity × Bytes)) (acc : List Module),
      (∀ p ∈ ids, p.1.sameModule ns name provider = true →
        (∀ c ∈ p.1.Version, isSpace c = false) ∧ '/' ∉ p.1.Version) →
      (∀ p ∈ ids, (keyPrefix ns name provider).isPrefixOf p.1.key = true →
        p.1.sameModule ns name provider = true) →
      listLoop cv ns provider (keyPrefix ns name provider)
          (((storeOf ids).filter (fun o => (keyPrefix ns name provider).isPrefixOf o.1)).map
            (fun o => ⟨s.bucket, o.1⟩)) acc =
        .returned (acc ++ (ids.filter (fun p => p.1.sameModule ns name provider)).map
          (fun p => listedModule s p.1), none) := by
  intro ids
  induction ids with
  | nil => intro acc _ _; simp [storeOf, listLoop]
  | cons p rest ih =>
    intro acc hv hp
    have hvr : ∀ q ∈ rest, q.1.sameModule ns name provider = true →
        (∀ c ∈ q.1.Version, isSpace c = false) ∧ '/' ∉ q.1.Version :=
      fun q hq => hv q (List.mem_cons_of_mem _ hq)
    have hpr : ∀ q ∈ rest, (keyPrefix ns name provider).isPrefixOf q.1.key = true →
        q.1.sameModule ns name provider = true :=
      fun q hq => hp q (List.mem_cons_of_mem _ hq)
    have hstore : storeOf (p :: rest) = (p.1.key, p.2) :: storeOf rest := rfl
    rw [hstore]
    by_cases hpre : (keyPrefix ns name provider).isPrefixOf p.1.key = true
    · have hsame := hp p (List.mem_cons_self _ _) hpre
      have hsame' : p.1.Namespace = ns ∧ p.1.Name = name ∧ p.1.Provider = provider := by
        simpa [Identity.sameModule] using hsame
      obtain ⟨e1, e2, e3⟩ := hsame'
      obtain ⟨hvp, hsp⟩ := hv p (List.mem_cons_self _ _) hsame
      have hget : getVersion cv p.1.key (keyPrefix ns name provider ++ "/version=%s".toList) =
          (p.1.Version, none) := by
        unfold Identity.key
        rw [e1, e2, e3, objectKey_literal,
          getVersion_literal cv ns name provider p.1.Version _ h1 h2 h3 hvp,
          takeWhile_ne_of_not_mem _ '/' hsp]
      rw [List.filter_cons_of_pos (by simpa using hpre), List.map_cons, listLoop]
      simp only [hget]
      rw [ih _ hvr hpr]
      have hf : (p :: rest).filter (fun q => q.1.sameModule ns name provider) =
          p :: rest.filter (fun q => q.1.sameModule ns name provider) :=
        List.filter_cons_of_pos hsame
      rw [hf, List.map_cons]
      simp [listedModule, e1, e3]
    · have hnot : p.1.sameModule ns name provider = false := by
        cases h : p.1.sameModule ns name provider with
        | false => rfl
        | true =>
          exfalso
          apply hpre
          have h' : p.1.Namespace = ns ∧ p.1.Name = name ∧ p.1.Provider = provider := by
            simpa [Identity.sameModule] using h
          obtain ⟨e1, e2, e3⟩ := h'
          unfold Identity.key
          rw [e1, e2, e3]
          exact keyPrefix_isPrefixOf ns name provider _
      have hf : (p :: rest).filter (fun q => q.1.sameModule ns name provider) =
          rest.filter (fun q => q.1.sameModule ns name provider) :=
        List.filter_cons_of_neg (by simp [hnot])
      rw [List.filter_cons_of_neg (by simpa using hpre), ih acc hvr hpr, hf]

theorem UploadModule_calls (cv : Conversions) (s : GCSRegistry) (wr : WriteResult) (w : World)
    (ns name provider version : GoString) (body : Bytes) :
    ∃ rest, (UploadModule cv s wr w ns name provider version body).1.calls = w.calls ++ rest := by
  unfold UploadModule
  by_cases h1 : ns = []
  · exact ⟨[], by simp [h1]⟩
  by_cases h2 : name = []
  · exact ⟨[], by simp [h1, h2]⟩
  by_cases h3 : provider = []
  · exact ⟨[], by simp [h1, h2, h3]⟩
  by_cases h4 : version = []
  · exact ⟨[], by simp [h1, h2, h3, h4]⟩
  simp only [h1, h2, h3, h4, if_false]
  have hw := GetModule_world cv s w ns name provider version
  generalize GetModule cv s w ns name provider version = g at hw
  obtain ⟨w1, o⟩ := g
  simp only at hw
  subst hw
  cases o with
  | fatal e => exact ⟨_, rfl⟩
  | panicked e => exact ⟨_, rfl⟩
  | returned r =>
    obtain ⟨m, e⟩ := r
    cases e with
    | none => exact ⟨_, rfl⟩
    | some e =>
      cases wr with
      | copyError t => exact ⟨_, by simp only [List.append_assoc]; rfl⟩
      | closeError t => exact ⟨_, by simp only [List.append_assoc]; rfl⟩
      | ok =>
        simp only []
        rw [GetModule_world]
        exact ⟨_, by simp only [List.append_assoc]; rfl⟩

theorem processModuleUpload_calls (cv : Conversions) (env : Env) (c : Config) (s : GCSRegistry)
    (w : World) (path : GoString) (spec : Spec) :
    ∃ rest, (processModuleUpload cv env c s w path spec).1.calls =
      w.calls ++ .callGetModule spec.Metadata.Namespace spec.Metadata.Name
        spec.Metadata.Provider spec.Metadata.Version :: rest := by
  unfold processModuleUpload
  simp only []
  generalize hw0 : ({ w with calls := w.calls ++ [Event.callGetModule spec.Metadata.Namespace
    spec.Metadata.Name spec.Metadata.Provider spec.Metadata.Version] } : World) = w0
  have hw := GetModule_world cv s w0 spec.Metadata.Namespace spec.Metadata.Name
    spec.Metadata.Provider spec.Metadata.Version
  generalize GetModule cv s w0 spec.Metadata.Namespace spec.Metadata.Name
    spec.Metadata.Provider spec.Metadata.Version = g at hw
  obtain ⟨w1, o⟩ := g
  simp only at hw
  subst hw
  subst hw0
  cases o with
  | fatal e => exact ⟨_, by simp; rfl⟩
  | panicked e => exact ⟨_, by simp; rfl⟩
  | returned r =>
    obtain ⟨m, e⟩ := r
    cases e with
    | none =>
      simp only []
      split <;> exact ⟨_, by simp; rfl⟩
    | some e =>
      simp only []
      cases ha : env.archiveModule (env.Dir path) with
      | mk buf aerr =>
        cases aerr with
        | some e2 => exact ⟨_, by simp only [List.append_assoc, List.singleton_append]; rfl⟩
        | none =>
          simp only []
          obtain ⟨rest, hrest⟩ := UploadModule_calls cv s env.write
            { objects := w.objects
              calls := w.calls ++ [Event.callGetModule spec.Metadata.Namespace
                spec.Metadata.Name spec.Metadata.Provider spec.Metadata.Version] ++
                [Event.attrs (objectKey spec.Metadata.Namespace spec.Metadata.Name
                  spec.Metadata.Provider spec.Metadata.Version)] ++
                [Event.callArchiveModule (env.Dir path)] ++
                [Event.callUploadModule spec.Metadata.Namespace spec.Metadata.Name
                  spec.Metadata.Provider spec.Metadata.Version] }
            spec.Metadata.Namespace spec.Metadata.Name spec.Metadata.Provider
            spec.Metadata.Version buf
          refine ⟨Event.attrs (objectKey spec.Metadata.Namespace spec.Metadata.Name
              spec.Metadata.Provider spec.Metadata.Version) ::
            Event.callArchiveModule (env.Dir path) ::
            Event.callUploadModule spec.Metadata.Namespace spec.Metadata.Name
              spec.Metadata.Provider spec.Metadata.Version :: rest, ?_⟩
          split <;> rename_i hu <;> rw [hu] at hrest <;> simp only at hrest <;>
            simp only [hrest, List.append_assoc, List.singleton_append, List.cons_append,
              List.nil_append]

theorem processModule_pass (cv : Conversions) (env : Env) (c : Config) (s : GCSRegistry)
    (w : World) (path : GoString) (spec : Spec)
    (hparse : env.ParseFile path = .ok spec)
    (hsem : c.VersionConstraintsSemver ≠ [] →
      env.NewConstraint c.VersionConstraintsSemver = none ∧
      env.NewSemver spec.Metadata.Version = none)
    (hre : c.VersionConstraintsRegex ≠ [] → env.Compile c.VersionConstraintsRegex = none)
    (hpass : passesFilter env c spec = true) :
    processModule cv env c s w path = processModuleUpload cv env c s w path spec := by
  have hpass' : (c.VersionConstraintsSemver = [] ∨
        env.Check c.VersionConstraintsSemver spec.Metadata.Version = true) ∧
      (c.VersionConstraintsRegex = [] ∨
        env.MatchString c.VersionConstraintsRegex spec.Metadata.Version = true) := by
    simpa [passesFilter] using hpass
  obtain ⟨hp1, hp2⟩ := hpass'
  unfold processModule
  rw [hparse]
  simp only []
  have e1 : (if c.VersionConstraintsSemver ≠ [] then meetsSemverConstraints env c spec
      else (true, none)) = (true, none) := by
    by_cases h : c.VersionConstraintsSemver = []
    · simp [h]
    · have hc := hp1.resolve_left h
      obtain ⟨a, b⟩ := hsem h
      simp [h, meetsSemverConstraints, a, b, hc]
  have e2 : (if c.VersionConstraintsRegex ≠ [] then meetsRegexConstraints env c spec
      else .returned true) = .returned true := by
    by_cases h : c.VersionConstraintsRegex = []
    · simp [h]
    · have hc := hp2.resolve_left h
      simp [h, meetsRegexConstraints, hre h, hc]
  rw [e1]
  simp only []
  rw [e2]

theorem processModule_skip (cv : Conversions) (env : Env) (c : Config) (s : GCSRegistry)
    (w : World) (path : GoString) (spec : Spec)
    (hparse : env.ParseFile path = .ok spec)
    (hsem : c.VersionConstraintsSemver ≠ [] →
      env.NewConstraint c.VersionConstraintsSemver = none ∧
      env.NewSemver spec.Metadata.Version = none)
    (hre : c.VersionConstraintsRegex ≠ [] → env.Compile c.VersionConstraintsRegex = none)
    (hfail0 : passesFilter env c spec = false) :
    processModule cv env c s w path = (w, .returned none) := by
  have hfail : ¬ ((c.VersionConstraintsSemver = [] ∨
        env.Check c.VersionConstraintsSemver spec.Metadata.Version = true) ∧
      (c.VersionConstraintsRegex = [] ∨
        env.MatchString c.VersionConstraintsRegex spec.Metadata.Version = true)) := by
    intro h
    have : passesFilter env c spec = true := by simpa [passesFilter] using h
    rw [hfail0] at this
    cases this
  unfold processModule
  rw [hparse]
  simp only []
  by_cases h : c.VersionConstraintsSemver = []
  · have h2 : c.VersionConstraintsRegex ≠ [] := by
      intro h2; exact hfail ⟨Or.inl h, Or.inl h2⟩
    have hm : env.MatchString c.VersionConstraintsRegex spec.Metadata.Version = false := by
      cases hm : env.MatchString c.VersionConstraintsRegex spec.Metadata.Version with
      | false => rfl
      | true => exact absurd ⟨Or.inl h, Or.inr hm⟩ hfail
    simp [h, h2, meetsRegexConstraints, hre h2, hm]
  · obtain ⟨a, b⟩ := hsem h
    cases hc : env.Check c.VersionConstraintsSemver spec.Metadata.Version with
    | false => simp [h, meetsSemverConstraints, a, b, hc]
    | true =>
      have h2 : c.VersionConstraintsRegex ≠ [] := by
        intro h2; exact hfail ⟨Or.inr hc, Or.inl h2⟩
      have hm : env.MatchString c.VersionConstraintsRegex spec.Metadata.Version = false := by
        cases hm : env.MatchString c.VersionConstraintsRegex spec.Metadata.Version with
        | false => rfl
        | true => exact absurd ⟨Or.inr hc, Or.inr hm⟩ hfail
      simp [h, h2, meetsSemverConstraints, a, b, hc, meetsRegexConstraints, hre h2, hm]

theorem UploadModule_fresh (cv : Conversions) (s : GCSRegistry) (w : World)
    (ns name provider version : GoString) (body : Bytes)
    (hns : ns ≠ []) (hname : name ≠ []) (hprovider : provider ≠ []) (hversion : version ≠ [])
    (hfree : w.objects.any (fun o => o.1 = objectKey ns name provider version) = false)
    (h1 : '%' ∉ ns) (h2 : '%' ∉ name) (h3 : '%' ∉ provider)
    (hv : ∀ c ∈ version, isSpace c = false) :
    UploadModule cv s .ok w ns name provider version body =
      ({ objects := w.objects ++ [(objectKey ns name provider version, body)],
         calls := w.calls ++ [.attrs (objectKey ns name provider version),
           .write (objectKey ns name provider version),
           .attrs (objectKey ns name provider version)] },
       .returned (resolvedModule s ns name provider version, none)) := by
  have hput := putObject_missing w.objects _ body hfree
  have hany := any_putObject w.objects (objectKey ns name provider version) body
  unfold UploadModule
  simp only [hns, hname, hprovider, hversion, if_false]
  rw [GetModule_missing cv s w ns name provider version hfree]
  simp only []
  rw [GetModule_found cv s _ ns name provider version (by simpa using hany) h1 h2 h3 hv]
  simp only [hput, List.append_assoc]
  rfl

theorem any_append_self (objs : List (GoString × Bytes)) (key : GoString) (body : Bytes) :
    (objs ++ [(key, body)]).any (fun o => o.1 = key) = true := by
  simp

/-- The scanner on a pattern with verbs of its own: for the namespace `%1%%%%s` the
search pattern contains `%1%` and `%%`; the literal percent is missing from the input,
nothing is stored, and `GetModule` stops in `log.Fatal` although the object exists. -/
theorem GetModule_percent_namespace_fatal :
    (GetModule noConversions exRegistry
        ⟨[(objectKey "%1%%%%s".toList "vpc".toList "aws".toList "1.0.0".toList, [1])], []⟩
        "%1%%%%s".toList "vpc".toList "aws".toList "1.0.0".toList).2 =
      .fatal (.new "failed to parse module version from ".toList) := by
  decide

/-! ## C1: key round-trip -/

/-- C1 as stated fails.  (1) Namespace `acme`, name `vpc`, provider `aws` and version
`1 0` are non-empty and contain no `/`, yet decoding the object name built from them
stops the version at the space: `getVersion` returns the empty string and the error
`failed to parse module version from 1`.  (2) With namespace `100%` and version `1.0.0`
the `%` of the namespace starts a verb in the search pattern and nothing is decoded. -/
theorem getVersion_roundtrip_counterexample :
    (("acme".toList ≠ [] ∧ "vpc".toList ≠ [] ∧ "aws".toList ≠ [] ∧ "1 0".toList ≠ []) ∧
     ('/' ∉ "acme".toList ∧ '/' ∉ "vpc".toList ∧ '/' ∉ "aws".toList ∧ '/' ∉ "1 0".toList) ∧
     getVersion noConversions (objectKey "acme".toList "vpc".toList "aws".toList "1 0".toList)
         (keyPrefix "acme".toList "vpc".toList "aws".toList ++ "/version=%s".toList) =
       ([], some (.new "failed to parse module version from 1".toList))) ∧
    (("100%".toList ≠ [] ∧ "1.0.0".toList ≠ []) ∧
     ('/' ∉ "100%".toList ∧ '/' ∉ "1.0.0".toList) ∧
     getVersion noConversions
         (objectKey "100%".toList "vpc".toList "aws".toList "1.0.0".toList)
         (keyPrefix "100%".toList "vpc".toList "aws".toList ++ "/version=%s".toList) =
       ([], some (.new "failed to parse module version from ".toList))) := by
  decide

/-- C1 (amended): for every namespace, name and provider that contain no `%` and every
version that contains no `/` and no space character, building the object name
`namespace=<ns>/name=<name>/provider=<provider>/version=<version>/<ns>-<name>-<provider>-<version>.tar.gz`
and decoding it with `getVersion` and the search pattern
`namespace=<ns>/name=<name>/provider=<provider>/version=%s` returns exactly the original
version string and no error. -/
theorem getVersion_roundtrip (cv : Conversions) (ns name provider version : GoString)
    (h1 : '%' ∉ ns) (h2 : '%' ∉ name) (h3 : '%' ∉ provider)
    (hv : ∀ c ∈ version, isSpace c = false) (hs : '/' ∉ version) :
    getVersion cv (objectKey ns name provider version)
        (keyPrefix ns name provider ++ "/version=%s".toList) = (version, none) := by
  rw [objectKey_literal, getVersion_literal cv ns name provider version _ h1 h2 h3 hv,
    takeWhile_ne_of_not_mem version '/' hs]

/-- The round-trip at namespace `acme corp` (a space in the namespace is harmless), name
`vpc`, provider `aws`, version `1.0.0`. -/
theorem getVersion_roundtrip_witness :
    ('%' ∉ "acme corp".toList ∧ '%' ∉ "vpc".toList ∧ '%' ∉ "aws".toList) ∧
    ((∀ c ∈ "1.0.0".toList, isSpace c = false) ∧ '/' ∉ "1.0.0".toList) ∧
    getVersion noConversions
        (objectKey "acme corp".toList "vpc".toList "aws".toList "1.0.0".toList)
        (keyPrefix "acme corp".toList "vpc".toList "aws".toList ++ "/version=%s".toList) =
      ("1.0.0".toList, none) :=
  ⟨by decide, by decide,
    getVersion_roundtrip noConversions "acme corp".toList "vpc".toList "aws".toList
      "1.0.0".toList (by decide) (by decide) (by decide) (by decide) (by decide)⟩

/-! ## C2: upload postcondition -/

/-- C2 as stated fails: on an empty bucket, with the four fields non-empty and the write
succeeding, `UploadModule` stores the object but does not return: the final `GetModule`
cannot decode the version and stops the process in `log.Fatal`.  This happens (1) for
`acme`, `vpc`, `aws`, `1 0` and (2) for `100%`, `vpc`, `aws`, `1.0.0`. -/
theorem UploadModule_postcondition_counterexample :
    (("acme".toList ≠ [] ∧ "vpc".toList ≠ [] ∧ "aws".toList ≠ [] ∧ "1 0".toList ≠ []) ∧
     UploadModule noConversions exRegistry .ok ⟨[], []⟩ "acme".toList "vpc".toList
         "aws".toList "1 0".toList [1, 2, 3] =
       (⟨[(objectKey "acme".toList "vpc".toList "aws".toList "1 0".toList, [1, 2, 3])],
         [.attrs (objectKey "acme".toList "vpc".toList "aws".toList "1 0".toList),
          .write (objectKey "acme".toList "vpc".toList "aws".toList "1 0".toList),
          .attrs (objectKey "acme".toList "vpc".toList "aws".toList "1 0".toList)]⟩,
        .fatal (.new "failed to parse module version from 1".toList))) ∧
    (("100%".toList ≠ [] ∧ "1.0.0".toList ≠ []) ∧
     (UploadModule noConversions exRegistry .ok ⟨[], []⟩ "100%".toList "vpc".toList
         "aws".toList "1.0.0".toList [1, 2, 3]).2 =
       .fatal (.new "failed to parse module version from ".toList)) := by
  decide

/-- C2 (amended): for every bucket that holds no object at the object name of
`(namespace, name, provider, version)`, with all four fields non-empty, no `%` in
namespace, name and provider, no space character in the version, and the write
succeeding, `UploadModule` leaves the bucket equal to the old one plus exactly one new
object at that name whose content is the supplied body (after one existence probe, one
write and one more probe), and returns without error the `Module` that `GetModule`
resolves for that identity on the new bucket. -/
theorem UploadModule_postcondition (cv : Conversions) (s : GCSRegistry) (w : World)
    (ns name provider version : GoString) (body : Bytes)
    (hns : ns ≠ []) (hname : name ≠ []) (hprovider : provider ≠ []) (hversion : version ≠ [])
    (hfree : w.objects.any (fun o => o.1 = objectKey ns name provider version) = false)
    (h1 : '%' ∉ ns) (h2 : '%' ∉ name) (h3 : '%' ∉ provider)
    (hv : ∀ c ∈ version, isSpace c = false) :
    ∃ m, UploadModule cv s .ok w ns name provider version body =
        ({ objects := w.objects ++ [(objectKey ns name provider version, body)],
           calls := w.calls ++ [.attrs (objectKey ns name provider version),
             .write (objectKey ns name provider version),
             .attrs (objectKey ns name provider version)] },
         .returned (m, none)) ∧
      (GetModule cv s (UploadModule cv s .ok w ns name provider version body).1
          ns name provider version).2 = .returned (m, none) := by
  have hup := UploadModule_fresh cv s w ns name provider version body hns hname hprovider
    hversion hfree h1 h2 h3 hv
  refine ⟨resolvedModule s ns name provider version, hup, ?_⟩
  rw [hup, GetModule_found cv s _ ns name provider version (any_append_self _ _ _) h1 h2 h3 hv]

/-- The upload of `acme/vpc/aws` `1.0.0` into a bucket that holds one other object. -/
theorem UploadModule_postcondition_witness :
    ∃ m, UploadModule noConversions exRegistry .ok ⟨[("other.txt".toList, [7])], []⟩
        "acme".toList "vpc".toList "aws".toList "1.0.0".toList [1, 2, 3] =
        (⟨[("other.txt".toList, [7])] ++
            [(objectKey "acme".toList "vpc".toList "aws".toList "1.0.0".toList, [1, 2, 3])],
          [] ++ [.attrs (objectKey "acme".toList "vpc".toList "aws".toList "1.0.0".toList),
           .write (objectKey "acme".toList "vpc".toList "aws".toList "1.0.0".toList),
           .attrs (objectKey "acme".toList "vpc".toList "aws".toList "1.0.0".toList)]⟩,
         .returned (m, none)) ∧
      (GetModule noConversions exRegistry
          (UploadModule noConversions exRegistry .ok ⟨[("other.txt".toList, [7])], []⟩
            "acme".toList "vpc".toList "aws".toList "1.0.0".toList [1, 2, 3]).1
          "acme".toList "vpc".toList "aws".toList "1.0.0".toList).2 = .returned (m, none) :=
  UploadModule_postcondition noConversions exRegistry ⟨[("other.txt".toList, [7])], []⟩
    "acme".toList "vpc".toList "aws".toList "1.0.0".toList [1, 2, 3]
    (by decide) (by decide) (by decide) (by decide) (by decide) (by decide) (by decide)
    (by decide) (by decide)

/-! ## C3: no overwrite -/

/-- C3: the existence check of `UploadModule` (lines 100 to 104) is reached once the
validation of lines 84 to 98 has passed, that is with all four fields non-empty.  There,
for every bucket in which `GetModule` resolves the identity
`(namespace, name, provider, version)`, `UploadModule` with that identity (whatever the
writer would do) returns the zero `Module` and an error that wraps `ErrAlreadyExists`
with the object name as its message, and makes no request but the existence probe: no
write, the objects are unchanged. -/
theorem UploadModule_no_overwrite (cv : Conversions) (s : GCSRegistry) (wr : WriteResult)
    (w : World) (ns name provider version : GoString) (body : Bytes) (m : Module)
    (hns : ns ≠ []) (hname : name ≠ []) (hprovider : provider ≠ []) (hversion : version ≠ [])
    (hres : (GetModule cv s w ns name provider version).2 = .returned (m, none)) :
    UploadModule cv s wr w ns name provider version body =
      ({ w with calls := w.calls ++ [.attrs (objectKey ns name provider version)] },
       .returned (Module.zero,
         some (.wrap (.sentinel .ErrAlreadyExists) (objectKey ns name provider version)))) ∧
    (GoError.wrap (.sentinel .ErrAlreadyExists)
        (objectKey ns name provider version)).IsSentinel .ErrAlreadyExists = true := by
  have hw := GetModule_world cv s w ns name provider version
  have hg : GetModule cv s w ns name provider version =
      ({ w with calls := w.calls ++ [.attrs (objectKey ns name provider version)] },
        .returned (m, none)) := Prod.ext hw hres
  constructor
  · unfold UploadModule
    simp only [hns, hname, hprovider, hversion, if_false]
    rw [hg]
  · simp [GoError.IsSentinel]

/-- A second upload of `acme/vpc/aws` `1.0.0` into a bucket that already holds it. -/
theorem UploadModule_no_overwrite_witness :
    UploadModule noConversions exRegistry .ok
        ⟨[(objectKey "acme".toList "vpc".toList "aws".toList "1.0.0".toList, [1, 2, 3])], []⟩
        "acme".toList "vpc".toList "aws".toList "1.0.0".toList [4, 5] =
      (⟨[(objectKey "acme".toList "vpc".toList "aws".toList "1.0.0".toList, [1, 2, 3])],
        [] ++ [.attrs (objectKey "acme".toList "vpc".toList "aws".toList "1.0.0".toList)]⟩,
       .returned (Module.zero,
         some (.wrap (.sentinel .ErrAlreadyExists)
           (objectKey "acme".toList "vpc".toList "aws".toList "1.0.0".toList)))) :=
  (UploadModule_no_overwrite noConversions exRegistry .ok
    ⟨[(objectKey "acme".toList "vpc".toList "aws".toList "1.0.0".toList, [1, 2, 3])], []⟩
    "acme".toList "vpc".toList "aws".toList "1.0.0".toList [4, 5]
    (resolvedModule exRegistry "acme".toList "vpc".toList "aws".toList "1.0.0".toList)
    (by decide) (by decide) (by decide) (by decide) (by decide)).1

/-! ## C4: missing identity field -/

/-- C4: whenever at least one of namespace, name, provider or version is the empty
string, `UploadModule` returns the zero `Module` and an error (one of the four
`... not defined` errors) and leaves the bucket and the request log exactly as they were
(no existence probe, no write); and when all four are non-empty the validation does not
fail: the call goes on to the existence probe of the object name. -/
theorem UploadModule_validation (cv : Conversions) (s : GCSRegistry) (wr : WriteResult)
    (w : World) (ns name provider version : GoString) (body : Bytes) :
    ((ns = [] ∨ name = [] ∨ provider = [] ∨ version = []) →
      (UploadModule cv s wr w ns name provider version body).1 = w ∧
      ((UploadModule cv s wr w ns name provider version body).2 =
          .returned (Module.zero, some (.new "namespace not defined".toList)) ∨
        (UploadModule cv s wr w ns name provider version body).2 =
          .returned (Module.zero, some (.new "name not defined".toList)) ∨
        (UploadModule cv s wr w ns name provider version body).2 =
          .returned (Module.zero, some (.new "provider not defined".toList)) ∨
        (UploadModule cv s wr w ns name provider version body).2 =
          .returned (Module.zero, some (.new "version not defined".toList)))) ∧
    ((ns ≠ [] ∧ name ≠ [] ∧ provider ≠ [] ∧ version ≠ []) →
      ∃ rest, (UploadModule cv s wr w ns name provider version body).1.calls =
        w.calls ++ .attrs (objectKey ns name provider version) :: rest) := by
  constructor
  · intro h
    unfold UploadModule
    by_cases h1 : ns = []
    · simp only [h1, if_true, true_or, and_self]
    by_cases h2 : name = []
    · simp only [h1, h2, if_true, if_false, true_or, or_true, and_self]
    by_cases h3 : provider = []
    · simp only [h1, h2, h3, if_true, if_false, true_or, or_true, and_self]
    by_cases h4 : version = []
    · simp only [h1, h2, h3, h4, if_true, if_false, or_true, and_self]
    · rcases h with h | h | h | h <;> contradiction
  · rintro ⟨h1, h2, h3, h4⟩
    have hw := GetModule_world cv s w ns name provider version
    unfold UploadModule
    simp only [h1, h2, h3, h4, if_false]
    generalize GetModule cv s w ns name provider version = g at hw
    obtain ⟨w1, o⟩ := g
    simp only at hw
    subst hw
    cases o with
    | fatal e => exact ⟨[], by simp⟩
    | panicked e => exact ⟨[], by simp⟩
    | returned r =>
      obtain ⟨m, e⟩ := r
      cases e with
      | none => exact ⟨[], by simp⟩
      | some e =>
        cases wr with
        | copyError t => exact ⟨[.write (objectKey ns name provider version)], by simp⟩
        | closeError t => exact ⟨[.write (objectKey ns name provider version)], by simp⟩
        | ok =>
          refine ⟨[.write (objectKey ns name provider version),
            .attrs (objectKey ns name provider version)], ?_⟩
          simp only []
          rw [GetModule_world]
          simp

/-- An upload with an empty provider into a bucket that already has a request log: the
log and the objects stay as they were. -/
theorem UploadModule_validation_witness :
    ("acme".toList = [] ∨ "vpc".toList = [] ∨ ([] : GoString) = [] ∨ "1.0.0".toList = []) ∧
    (UploadModule noConversions exRegistry .ok ⟨[], [.objects "x".toList]⟩
        "acme".toList "vpc".toList [] "1.0.0".toList [1, 2, 3]).1 =
      ⟨[], [.objects "x".toList]⟩ :=
  ⟨Or.inr (Or.inr (Or.inl rfl)),
    ((UploadModule_validation noConversions exRegistry .ok ⟨[], [.objects "x".toList]⟩
      "acme".toList "vpc".toList [] "1.0.0".toList [1, 2, 3]).1
      (Or.inr (Or.inr (Or.inl rfl)))).1⟩

/-! ## C5: archive entry names -/

/-- C5 (the code at a failing input): for the module root `vpc` and the visited file
`vpc/examples/vpc/main.tf`, which is root, separator and the relative path
`examples/vpc/main.tf`, the header name computed by `archiveModule` is
`examples//main.tf`: the second occurrence of the root is removed too.  For the root `.`
and the visited file `main.tf` the header name is `maintf`. -/
theorem headerName_not_relative :
    "vpc/examples/vpc/main.tf".toList =
      "vpc".toList ++ ['/'] ++ "examples/vpc/main.tf".toList ∧
    headerName '/' "vpc".toList "vpc/examples/vpc/main.tf".toList =
      "examples//main.tf".toList ∧
    headerName '/' ".".toList "main.tf".toList = "maintf".toList := by
  decide

/-! ## C6: listing -/

/-- C6 as stated fails.  (1) A bucket holds the archives of `acme/vpc/aws` `1.0.0` and
`acme/vpc/aws2` `1.0.0`, both under their object names; listing `acme/vpc/aws` does not
return: the object of provider `aws2` is among those the backend yields for the listing
text `namespace=acme/name=vpc/provider=aws`, its name does not match the search pattern
and the process stops in `log.Fatal`.  (2) A bucket holds only the archive of
`acme/vpc/aws` at version `1 0`; listing `acme/vpc/aws` stops in `log.Fatal` as well.
(3) A bucket holds only the archive of `100%/vpc/aws` `1.0.0`; listing `100%/vpc/aws`
stops in `log.Fatal`. -/
theorem ListModuleVersions_exact_counterexample :
    (ListModuleVersions noConversions exRegistry
        ⟨storeOf [(exIdentity "aws".toList "1.0.0".toList, [1]),
                  (exIdentity "aws2".toList "1.0.0".toList, [2])], []⟩
        "acme".toList "vpc".toList "aws".toList).2 =
      .fatal (.new "failed to parse module version from ".toList) ∧
    (ListModuleVersions noConversions exRegistry
        ⟨storeOf [(exIdentity "aws".toList "1 0".toList, [1])], []⟩
        "acme".toList "vpc".toList "aws".toList).2 =
      .fatal (.new "failed to parse module version from 1".toList) ∧
    (ListModuleVersions noConversions exRegistry
        ⟨storeOf [(⟨"100%".toList, "vpc".toList, "aws".toList, "1.0.0".toList⟩, [1])], []⟩
        "100%".toList "vpc".toList "aws".toList).2 =
      .fatal (.new "failed to parse module version from ".toList) := by
  decide

/-- C6 (amended): let the bucket hold one archive per stored identity, each under its
object name; let namespace, name and provider of the request contain no `%`; let the
stored versions of that namespace, name and provider be free of `/` and of space
characters; and let no stored object of another namespace, name or provider have a name
that starts with the listing text `namespace=<ns>/name=<name>/provider=<provider>`.
Then `ListModuleVersions` returns normally, without error, one `Module` per stored object
of that namespace, name and provider, in bucket order, each with the requested namespace
and provider and with `Version` equal to the stored version, and nothing else; the
bucket is unchanged. -/
theorem ListModuleVersions_exact (cv : Conversions) (s : GCSRegistry)
    (ids : List (Identity × Bytes)) (calls : List Event) (ns name provider : GoString)
    (h1 : '%' ∉ ns) (h2 : '%' ∉ name) (h3 : '%' ∉ provider)
    (hv : ∀ p ∈ ids, p.1.sameModule ns name provider = true →
      (∀ c ∈ p.1.Version, isSpace c = false) ∧ '/' ∉ p.1.Version)
    (hp : ∀ p ∈ ids, (keyPrefix ns name provider).isPrefixOf p.1.key = true →
      p.1.sameModule ns name provider = true) :
    ∃ modules, ListModuleVersions cv s ⟨storeOf ids, calls⟩ ns name provider =
        (⟨storeOf ids, calls ++ [.objects (keyPrefix ns name provider)]⟩,
         .returned (modules, none)) ∧
      modules.map (fun m => m.Version) =
        (ids.filter (fun p => p.1.sameModule ns name provider)).map (fun p => p.1.Version) ∧
      ∀ m ∈ modules, m.Namespace = ns ∧ m.Provider = provider := by
  refine ⟨(ids.filter (fun p => p.1.sameModule ns name provider)).map
    (fun p => listedModule s p.1), ?_, ?_, ?_⟩
  · unfold ListModuleVersions Objects
    simp only []
    rw [listLoop_storeOf cv s ns name provider h1 h2 h3 ids [] hv hp]
    simp
  · simp [listedModule, Function.comp_def]
  · intro m hm
    simp only [List.mem_map, List.mem_filter] at hm
    obtain ⟨p, ⟨_, hsame⟩, rfl⟩ := hm
    have hsame' : p.1.Namespace = ns ∧ p.1.Name = name ∧ p.1.Provider = provider := by
      simpa [Identity.sameModule] using hsame
    exact ⟨hsame'.1, hsame'.2.2⟩

/-- Listing `acme/vpc/aws` in a bucket with two versions of it and one archive of
`acme/vpc/azure`. -/
theorem ListModuleVersions_exact_witness :
    ∃ modules, ListModuleVersions noConversions exRegistry
          ⟨storeOf [(exIdentity "aws".toList "1.0.0".toList, [1]),
                    (exIdentity "azure".toList "1.0.0".toList, [2]),
                    (exIdentity "aws".toList "1.1.0".toList, [3])], []⟩
          "acme".toList "vpc".toList "aws".toList =
        (⟨storeOf [(exIdentity "aws".toList "1.0.0".toList, [1]),
                   (exIdentity "azure".toList "1.0.0".toList, [2]),
                   (exIdentity "aws".toList "1.1.0".toList, [3])],
          [] ++ [.objects (keyPrefix "acme".toList "vpc".toList "aws".toList)]⟩,
         .returned (modules, none)) ∧
      modules.map (fun m => m.Version) =
        ([(exIdentity "aws".toList "1.0.0".toList, [1]),
          (exIdentity "azure".toList "1.0.0".toList, [2]),
          (exIdentity "aws".toList "1.1.0".toList, [3])].filter
            (fun p => p.1.sameModule "acme".toList "vpc".toList "aws".toList)).map
          (fun p => p.1.Version) ∧
      ∀ m ∈ modules, m.Namespace = "acme".toList ∧ m.Provider = "aws".toList :=
  ListModuleVersions_exact noConversions exRegistry
    [(exIdentity "aws".toList "1.0.0".toList, [1]),
     (exIdentity "azure".toList "1.0.0".toList, [2]),
     (exIdentity "aws".toList "1.1.0".toList, [3])] []
    "acme".toList "vpc".toList "aws".toList (by decide) (by decide) (by decide)
    (by decide) (by decide)


/-! ## C7: constraint composition -/

/-- C7: for every configuration and every spec the parser returns, with the semver
constraint and the version parsing whenever the semver constraint is set and the pattern
compiling whenever the regex constraint is set, `processModule` goes on to the existence
check (its first request is the `GetModule` call for the spec) if and only if the semver
constraint is unset or the version satisfies it, and the regex constraint is unset or
the version matches it.  When the filter lets the spec through, `processModule` is the
existence check, archive and upload of lines 72 to 106; when a configured constraint
fails it returns nil and the bucket and request log are as before (no registry call);
with neither constraint set every spec passes. -/
theorem processModule_filter (cv : Conversions) (env : Env) (c : Config) (s : GCSRegistry)
    (w : World) (path : GoString) (spec : Spec)
    (hparse : env.ParseFile path = .ok spec)
    (hsem : c.VersionConstraintsSemver ≠ [] →
      env.NewConstraint c.VersionConstraintsSemver = none ∧
      env.NewSemver spec.Metadata.Version = none)
    (hre : c.VersionConstraintsRegex ≠ [] → env.Compile c.VersionConstraintsRegex = none) :
    ((∃ rest, (processModule cv env c s w path).1.calls =
        w.calls ++ .callGetModule spec.Metadata.Namespace spec.Metadata.Name
          spec.Metadata.Provider spec.Metadata.Version :: rest) ↔
      ((c.VersionConstraintsSemver = [] ∨
          env.Check c.VersionConstraintsSemver spec.Metadata.Version = true) ∧
        (c.VersionConstraintsRegex = [] ∨
          env.MatchString c.VersionConstraintsRegex spec.Metadata.Version = true))) ∧
    (passesFilter env c spec = true →
      processModule cv env c s w path = processModuleUpload cv env c s w path spec) ∧
    (passesFilter env c spec = false → processModule cv env c s w path = (w, .returned none)) ∧
    (c.VersionConstraintsSemver = [] → c.VersionConstraintsRegex = [] →
      passesFilter env c spec = true) := by
  have hiff : passesFilter env c spec = true ↔
      ((c.VersionConstraintsSemver = [] ∨
          env.Check c.VersionConstraintsSemver spec.Metadata.Version = true) ∧
        (c.VersionConstraintsRegex = [] ∨
          env.MatchString c.VersionConstraintsRegex spec.Metadata.Version = true)) := by
    simp [passesFilter]
  refine ⟨?_, processModule_pass cv env c s w path spec hparse hsem hre,
    processModule_skip cv env c s w path spec hparse hsem hre, ?_⟩
  · rw [← hiff]
    constructor
    · rintro ⟨rest, hrest⟩
      cases hp : passesFilter env c spec with
      | true => rfl
      | false =>
        rw [processModule_skip cv env c s w path spec hparse hsem hre hp] at hrest
        have := congrArg List.length hrest
        simp at this
    · intro hp
      rw [processModule_pass cv env c s w path spec hparse hsem hre hp]
      exact processModuleUpload_calls cv env c s w path spec
  · intro h1 h2
    simp [passesFilter, h1, h2]

/-- The filter on the spec `acme/vpc/aws` `0.9.0` with both constraints set: the semver
check rejects the version, `processModule` returns nil and makes no request. -/
theorem processModule_filter_witness :
    passesFilter (exEnv (exMetadata "0.9.0".toList)) (exConfig true)
      ⟨exMetadata "0.9.0".toList⟩ = false ∧
    processModule noConversions (exEnv (exMetadata "0.9.0".toList)) (exConfig true) exRegistry
        ⟨[], []⟩ "modules/vpc/boring-registry.hcl".toList = (⟨[], []⟩, .returned none) :=
  ⟨by decide,
    (processModule_filter noConversions (exEnv (exMetadata "0.9.0".toList)) (exConfig true)
      exRegistry ⟨[], []⟩ "modules/vpc/boring-registry.hcl".toList
      ⟨exMetadata "0.9.0".toList⟩ rfl (fun _ => ⟨rfl, rfl⟩) (fun _ => rfl)).2.2.1
      (by decide)⟩

/-! ## C8: rejection without tolerance -/

/-- C8 as stated fails: the spec `acme/vpc/aws` `1.0.0` passes the filter and its
identity resolves in the bucket; with `IgnoreExistingModule = false`, `processModule`
returns the error made by `errors.New("module already exists")`, which neither is nor
wraps `module.ErrAlreadyExists`. -/
theorem processModule_rejects_existing_counterexample :
    passesFilter (exEnv (exMetadata "1.0.0".toList)) (exConfig false)
      ⟨exMetadata "1.0.0".toList⟩ = true ∧
    (GetModule noConversions exRegistry
        ⟨[(objectKey "acme".toList "vpc".toList "aws".toList "1.0.0".toList, [9])], []⟩
        "acme".toList "vpc".toList "aws".toList "1.0.0".toList).2 =
      .returned (resolvedModule exRegistry "acme".toList "vpc".toList "aws".toList
        "1.0.0".toList, none) ∧
    (processModule noConversions (exEnv (exMetadata "1.0.0".toList)) (exConfig false) exRegistry
        ⟨[(objectKey "acme".toList "vpc".toList "aws".toList "1.0.0".toList, [9])], []⟩
        "modules/vpc/boring-registry.hcl".toList).2 =
      .returned (some (.new "module already exists".toList)) ∧
    (GoError.new "module already exists".toList).IsSentinel .ErrAlreadyExists = false := by
  decide

/-- C8 (amended): for every spec that passes the filter and whose identity already
resolves in the registry, `processModule` with `IgnoreExistingModule = false` returns
the error `errors.New("module already exists")` (a fresh error that neither is nor
wraps `module.ErrAlreadyExists`), makes no request but the `GetModule` call and its
existence probe (no archive, no `UploadModule`, no write), and leaves the objects of the
bucket unchanged. -/
theorem processModule_rejects_existing (cv : Conversions) (env : Env) (c : Config)
    (s : GCSRegistry) (w : World) (path : GoString) (spec : Spec) (m : Module)
    (hparse : env.ParseFile path = .ok spec)
    (hsem : c.VersionConstraintsSemver ≠ [] →
      env.NewConstraint c.VersionConstraintsSemver = none ∧
      env.NewSemver spec.Metadata.Version = none)
    (hre : c.VersionConstraintsRegex ≠ [] → env.Compile c.VersionConstraintsRegex = none)
    (hpass : passesFilter env c spec = true)
    (hign : c.IgnoreExistingModule = false)
    (hres : (GetModule cv s w spec.Metadata.Namespace spec.Metadata.Name
      spec.Metadata.Provider spec.Metadata.Version).2 = .returned (m, none)) :
    processModule cv env c s w path =
      ({ w with
         calls := w.calls ++
           [.callGetModule spec.Metadata.Namespace spec.Metadata.Name spec.Metadata.Provider
              spec.Metadata.Version,
            .attrs (objectKey spec.Metadata.Namespace spec.Metadata.Name
              spec.Metadata.Provider spec.Metadata.Version)] },
       .returned (some (.new "module already exists".toList))) ∧
    (GoError.new "module already exists".toList).IsSentinel .ErrAlreadyExists = false := by
  refine ⟨?_, rfl⟩
  rw [processModule_pass cv env c s w path spec hparse hsem hre hpass]
  unfold processModuleUpload
  simp only []
  have hw := GetModule_world cv s
    { w with calls := w.calls ++ [Event.callGetModule spec.Metadata.Namespace
      spec.Metadata.Name spec.Metadata.Provider spec.Metadata.Version] }
    spec.Metadata.Namespace spec.Metadata.Name spec.Metadata.Provider spec.Metadata.Version
  have ho := GetModule_outcome_calls cv s w.objects
    (w.calls ++ [Event.callGetModule spec.Metadata.Namespace
      spec.Metadata.Name spec.Metadata.Provider spec.Metadata.Version]) w.calls
    spec.Metadata.Namespace spec.Metadata.Name spec.Metadata.Provider spec.Metadata.Version
  rw [hres] at ho
  have hg : GetModule cv s
      { w with calls := w.calls ++ [Event.callGetModule spec.Metadata.Namespace
        spec.Metadata.Name spec.Metadata.Provider spec.Metadata.Version] }
      spec.Metadata.Namespace spec.Metadata.Name spec.Metadata.Provider spec.Metadata.Version =
      ({ w with
         calls := w.calls ++ [Event.callGetModule spec.Metadata.Namespace
           spec.Metadata.Name spec.Metadata.Provider spec.Metadata.Version] ++
           [Event.attrs (objectKey spec.Metadata.Namespace spec.Metadata.Name
             spec.Metadata.Provider spec.Metadata.Version)] },
       .returned (m, none)) := Prod.ext hw ho
  rw [hg]
  simp [hign]

/-- The second publish of `acme/vpc/aws` `1.0.0` without tolerance: the stored archive
`[9]` stays. -/
theorem processModule_rejects_existing_witness :
    processModule noConversions (exEnv (exMetadata "1.0.0".toList)) (exConfig false) exRegistry
        ⟨[(objectKey "acme".toList "vpc".toList "aws".toList "1.0.0".toList, [9])], []⟩
        "modules/vpc/boring-registry.hcl".toList =
      (⟨[(objectKey "acme".toList "vpc".toList "aws".toList "1.0.0".toList, [9])],
        [] ++ [.callGetModule "acme".toList "vpc".toList "aws".toList "1.0.0".toList,
          .attrs (objectKey "acme".toList "vpc".toList "aws".toList "1.0.0".toList)]⟩,
       .returned (some (.new "module already exists".toList))) :=
  (processModule_rejects_existing noConversions (exEnv (exMetadata "1.0.0".toList))
    (exConfig false) exRegistry
    ⟨[(objectKey "acme".toList "vpc".toList "aws".toList "1.0.0".toList, [9])], []⟩
    "modules/vpc/boring-registry.hcl".toList ⟨exMetadata "1.0.0".toList⟩
    (resolvedModule exRegistry "acme".toList "vpc".toList "aws".toList "1.0.0".toList)
    rfl (fun _ => ⟨rfl, rfl⟩) (fun _ => rfl) (by decide) rfl (by decide)).1

/-! ## C9: idempotence under tolerance -/

/-- C9 as stated fails, with `IgnoreExistingModule = true`, no constraint set, an empty
bucket, and archiving and writing succeeding.  (1) For the spec `acme/vpc/aws` at version
`1 0` the first run does not return nil: the archive is written, then the process stops
in `log.Fatal` because the version cannot be decoded from the object name.  (2) For a
spec with an empty provider the first run returns the error `provider not defined`.
(3) For the spec `100%/vpc/aws` `1.0.0` the first run stops in `log.Fatal`. -/
theorem processModule_idempotent_counterexample :
    passesFilter (exEnv (exMetadata "1 0".toList)) (exConfigOpen true)
      ⟨exMetadata "1 0".toList⟩ = true ∧
    (processModule noConversions (exEnv (exMetadata "1 0".toList)) (exConfigOpen true)
        exRegistry ⟨[], []⟩ "modules/vpc/boring-registry.hcl".toList).2 =
      .fatal (.new "failed to parse module version from 1".toList) ∧
    (processModule noConversions (exEnv ⟨"acme".toList, "vpc".toList, [], "1.0.0".toList⟩)
        (exConfigOpen true) exRegistry ⟨[], []⟩ "modules/vpc/boring-registry.hcl".toList).2 =
      .returned (some (.new "provider not defined".toList)) ∧
    (processModule noConversions
        (exEnv ⟨"100%".toList, "vpc".toList, "aws".toList, "1.0.0".toList⟩)
        (exConfigOpen true) exRegistry ⟨[], []⟩ "modules/vpc/boring-registry.hcl".toList).2 =
      .fatal (.new "failed to parse module version from ".toList) := by
  decide

/-- C9 (amended): for every spec that passes the filter, whose four identity fields are
non-empty, with no `%` in namespace, name and provider and no space character in the
version, running `processModule` twice with `IgnoreExistingModule = true` against a
bucket that initially lacks the identity (archiving and writing succeed) returns nil both
times; the first run adds exactly one object, the archive, under the object name; the
second run makes only the `GetModule` call and its existence probe (no archive, no
`UploadModule`, no write), and the objects after the second run equal those after the
first. -/
theorem processModule_idempotent (cv : Conversions) (env : Env) (c : Config)
    (s : GCSRegistry) (w : World) (path : GoString) (spec : Spec) (buf : Bytes)
    (hparse : env.ParseFile path = .ok spec)
    (hsem : c.VersionConstraintsSemver ≠ [] →
      env.NewConstraint c.VersionConstraintsSemver = none ∧
      env.NewSemver spec.Metadata.Version = none)
    (hre : c.VersionConstraintsRegex ≠ [] → env.Compile c.VersionConstraintsRegex = none)
    (hpass : passesFilter env c spec = true)
    (hign : c.IgnoreExistingModule = true)
    (hns : spec.Metadata.Namespace ≠ []) (hname : spec.Metadata.Name ≠ [])
    (hprovider : spec.Metadata.Provider ≠ []) (hversion : spec.Metadata.Version ≠ [])
    (h1 : '%' ∉ spec.Metadata.Namespace) (h2 : '%' ∉ spec.Metadata.Name)
    (h3 : '%' ∉ spec.Metadata.Provider)
    (hv : ∀ ch ∈ spec.Metadata.Version, isSpace ch = false)
    (hfree : w.objects.any (fun o => o.1 = objectKey spec.Metadata.Namespace
      spec.Metadata.Name spec.Metadata.Provider spec.Metadata.Version) = false)
    (harch : env.archiveModule (env.Dir path) = (buf, none))
    (hwrite : env.write = .ok) :
    (processModule cv env c s w path).2 = .returned none ∧
    (processModule cv env c s w path).1.objects =
      w.objects ++ [(objectKey spec.Metadata.Namespace spec.Metadata.Name
        spec.Metadata.Provider spec.Metadata.Version, buf)] ∧
    processModule cv env c s (processModule cv env c s w path).1 path =
      ({ (processModule cv env c s w path).1 with
         calls := (processModule cv env c s w path).1.calls ++
           [.callGetModule spec.Metadata.Namespace spec.Metadata.Name spec.Metadata.Provider
              spec.Metadata.Version,
            .attrs (objectKey spec.Metadata.Namespace spec.Metadata.Name
              spec.Metadata.Provider spec.Metadata.Version)] },
       .returned none) := by
  obtain ⟨⟨ns, name, provider, version⟩⟩ := spec
  simp only at hns hname hprovider hversion h1 h2 h3 hv hfree hsem hpass
  have hrun1 : processModule cv env c s w path =
      ({ objects := w.objects ++ [(objectKey ns name provider version, buf)],
         calls := w.calls ++ [.callGetModule ns name provider version,
           .attrs (objectKey ns name provider version),
           .callArchiveModule (env.Dir path),
           .callUploadModule ns name provider version,
           .attrs (objectKey ns name provider version),
           .write (objectKey ns name provider version),
           .attrs (objectKey ns name provider version)] },
       .returned none) := by
    rw [processModule_pass cv env c s w path _ hparse hsem hre hpass]
    unfold processModuleUpload
    simp only []
    rw [GetModule_missing cv s
      { objects := w.objects, calls := w.calls ++ [.callGetModule ns name provider version] }
      ns name provider version hfree]
    simp only [harch, hwrite]
    rw [UploadModule_fresh cv s
      { objects := w.objects,
        calls := w.calls ++ [.callGetModule ns name provider version] ++
          [.attrs (objectKey ns name provider version)] ++
          [.callArchiveModule (env.Dir path)] ++ [.callUploadModule ns name provider version] }
      ns name provider version buf hns hname hprovider hversion hfree h1 h2 h3 hv]
    simp only [List.append_assoc, List.singleton_append, List.cons_append, List.nil_append]
  rw [hrun1]
  refine ⟨rfl, rfl, ?_⟩
  rw [processModule_pass cv env c s _ path _ hparse hsem hre hpass]
  unfold processModuleUpload
  simp only []
  rw [GetModule_found cv s
    { objects := w.objects ++ [(objectKey ns name provider version, buf)],
      calls := w.calls ++ [.callGetModule ns name provider version,
           .attrs (objectKey ns name provider version),
           .callArchiveModule (env.Dir path),
           .callUploadModule ns name provider version,
           .attrs (objectKey ns name provider version),
           .write (objectKey ns name provider version),
           .attrs (objectKey ns name provider version)] ++
        [.callGetModule ns name provider version] }
    ns name provider version (any_append_self _ _ _) h1 h2 h3 hv]
  simp only [hign, if_true, List.append_assoc, List.singleton_append, List.cons_append,
    List.nil_append]

/-- Publishing `acme/vpc/aws` `1.0.0` into an empty bucket: nil, and one stored
archive. -/
theorem processModule_idempotent_witness :
    (processModule noConversions (exEnv (exMetadata "1.0.0".toList)) (exConfig true) exRegistry
        ⟨[], []⟩ "modules/vpc/boring-registry.hcl".toList).2 = .returned none ∧
    (processModule noConversions (exEnv (exMetadata "1.0.0".toList)) (exConfig true) exRegistry
        ⟨[], []⟩ "modules/vpc/boring-registry.hcl".toList).1.objects =
      [] ++ [(objectKey "acme".toList "vpc".toList "aws".toList "1.0.0".toList, [1, 2, 3])] :=
  have h := processModule_idempotent noConversions (exEnv (exMetadata "1.0.0".toList))
    (exConfig true) exRegistry ⟨[], []⟩ "modules/vpc/boring-registry.hcl".toList
    ⟨exMetadata "1.0.0".toList⟩ [1, 2, 3] rfl (fun _ => ⟨rfl, rfl⟩) (fun _ => rfl)
    (by decide) rfl (by decide) (by decide) (by decide) (by decide) (by decide) (by decide)
    (by decide) (by decide) rfl rfl rfl
  ⟨h.1, h.2.1⟩

/-! ## C10: the module `GetModule` returns -/

/-- C10 as stated fails.  (1) For `acme/vpc/aws` `1.0.0`, stored under its object name,
`GetModule` returns a `Module` whose `Name` is the object name
`namespace=acme/name=vpc/provider=aws/version=1.0.0/acme-vpc-aws-1.0.0.tar.gz`, not `vpc`.
(2) For `acme/vpc/aws` at version `1 0`, stored under its object name, `GetModule` does
not return a `Module`: it stops the process in `log.Fatal`; so it does for `100%/vpc/aws`
`1.0.0`.  (3) For `acme/vpc/aws` at version `1/0`, stored under its object name, the
`Module` returned has `Version` `1`. -/
theorem GetModule_identity_counterexample :
    (GetModule noConversions exRegistry
        ⟨[(objectKey "acme".toList "vpc".toList "aws".toList "1.0.0".toList, [1, 2, 3])], []⟩
        "acme".toList "vpc".toList "aws".toList "1.0.0".toList).2 =
      .returned
        ({ Namespace := "acme".toList
           Name :=
             "namespace=acme/name=vpc/provider=aws/version=1.0.0/acme-vpc-aws-1.0.0.tar.gz".toList
           Provider := "aws".toList
           Version := "1.0.0".toList
           DownloadURL := ("gcs::https://www.googleapis.com/storage/v1/modules/" ++
             "namespace=acme/name=vpc/provider=aws/version=1.0.0/acme-vpc-aws-1.0.0.tar.gz").toList },
         none) ∧
    (GetModule noConversions exRegistry
        ⟨[(objectKey "acme".toList "vpc".toList "aws".toList "1 0".toList, [1, 2, 3])], []⟩
        "acme".toList "vpc".toList "aws".toList "1 0".toList).2 =
      .fatal (.new "failed to parse module version from 1".toList) ∧
    (GetModule noConversions exRegistry
        ⟨[(objectKey "100%".toList "vpc".toList "aws".toList "1.0.0".toList, [1, 2, 3])], []⟩
        "100%".toList "vpc".toList "aws".toList "1.0.0".toList).2 =
      .fatal (.new "failed to parse module version from ".toList) ∧
    (GetModule noConversions exRegistry
        ⟨[(objectKey "acme".toList "vpc".toList "aws".toList "1/0".toList, [1, 2, 3])], []⟩
        "acme".toList "vpc".toList "aws".toList "1/0".toList).2 =
      .returned (resolvedModule exRegistry "acme".toList "vpc".toList "aws".toList
        "1/0".toList, none) ∧
    (resolvedModule exRegistry "acme".toList "vpc".toList "aws".toList "1/0".toList).Version =
      "1".toList := by
  decide

/-- C10 (amended): for every `(namespace, name, provider, version)` with no `%` in
namespace, name and provider and neither `/` nor a space character in the version, for
which the object at the object name exists, `GetModule` returns without error a `Module`
whose `Namespace`, `Provider` and `Version` fields equal the namespace, provider and
version arguments. -/
theorem GetModule_identity (cv : Conversions) (s : GCSRegistry) (w : World)
    (ns name provider version : GoString)
    (hex : w.objects.any (fun o => o.1 = objectKey ns name provider version) = true)
    (h1 : '%' ∉ ns) (h2 : '%' ∉ name) (h3 : '%' ∉ provider)
    (hv : ∀ c ∈ version, isSpace c = false) (hs : '/' ∉ version) :
    ∃ m, (GetModule cv s w ns name provider version).2 = .returned (m, none) ∧
      m.Namespace = ns ∧ m.Provider = provider ∧ m.Version = version := by
  refine ⟨resolvedModule s ns name provider version, ?_, rfl, rfl, ?_⟩
  · rw [GetModule_found cv s w ns name provider version hex h1 h2 h3 hv]
  · exact takeWhile_ne_of_not_mem version '/' hs

/-- Resolving `acme/vpc/aws` `1.0.0` in a bucket that holds it. -/
theorem GetModule_identity_witness :
    ∃ m, (GetModule noConversions exRegistry
          ⟨[(objectKey "acme".toList "vpc".toList "aws".toList "1.0.0".toList, [1, 2, 3])], []⟩
          "acme".toList "vpc".toList "aws".toList "1.0.0".toList).2 = .returned (m, none) ∧
      m.Namespace = "acme".toList ∧ m.Provider = "aws".toList ∧ m.Version = "1.0.0".toList :=
  GetModule_identity noConversions exRegistry
    ⟨[(objectKey "acme".toList "vpc".toList "aws".toList "1.0.0".toList, [1, 2, 3])], []⟩
    "acme".toList "vpc".toList "aws".toList "1.0.0".toList
    (by decide) (by decide) (by decide) (by decide) (by decide) (by decide)

end BoringRegistry
